import Mathlib

/-!
# showdocs: a verification development

A shallow embedding of `showdocs.c` (the POSIX build, i.e. the `#else` branches of the
platform conditionals, on an LP64 target) and theorems about it.

Modelling conventions.

* A byte is a `Nat`; a byte string is a `List Nat`.
* A `char *` is modelled by the memory that starts at the pointer (`List Nat`); the C
  string it denotes is the part before the first NUL byte (`cstr`).  Reading past the end
  of the modelled memory yields NUL.
* A function that writes through a `char *` returns the new contents of that memory.
* Local arrays that the C code leaves uninitialised start with arbitrary contents
  (`stack_array uninit n`, for an arbitrary `uninit : Nat → Nat`).
* The file system is a function from path strings to the contents of the file that
  `fopen(path, "rb")` opens, or `none` when `fopen` fails.
* The connection is the list of buffers passed to `send`, in order; every `send` is
  taken to transmit its whole buffer.
-/

namespace Showdocs

/-! ## Constants and C strings -/

/-- Bytes of a string literal, without a terminator. -/
def s2b (s : String) : List Nat := s.toList.map Char.toNat

/-- Memory of a C string literal: its bytes and the terminating NUL. -/
def lit (s : String) : List Nat := s2b s ++ [0]

/-- Models `#define PATH_SEP '/'` -/
def PATH_SEP : Nat := 47

/-- Models `#define PATH_SEP_STR "/"` -/
def PATH_SEP_STR : List Nat := [47, 0]

/-- Models `#define BUFFER_SIZE 4096` -/
def BUFFER_SIZE : Nat := 4096

/-- Models `#define MAX_PATH_LEN 512` -/
def MAX_PATH_LEN : Nat := 512

/-- The C string at a pointer: the bytes before the first NUL. -/
def cstr (p : List Nat) : List Nat := p.takeWhile (fun c => c != 0)

/-- Models `strlen` -/
def strlen (p : List Nat) : Nat := (cstr p).length

/-- Models `strcmp(a, b) == 0` -/
def streq (a b : List Nat) : Bool := cstr a == cstr b

/-- An uninitialised local `char name[n]`. -/
def stack_array (uninit : Nat → Nat) (n : Nat) : List Nat := (List.range n).map uninit

/-- Models `strncpy(dest, src, n)`: copies at most `n` bytes of the string `src` and pads with
NUL bytes up to `n` bytes written. -/
def strncpy (dest src : List Nat) (n : Nat) : List Nat :=
  let s := (cstr src).take n
  s ++ List.replicate (n - s.length) 0 ++ dest.drop n

/-- Models `snprintf(str, size, ...)`, where `out` is the fully formatted output: at most
`size - 1` bytes of it are stored, followed by a NUL; nothing is stored when `size` is 0. -/
def snprintf (str : List Nat) (size : Nat) (out : List Nat) : List Nat :=
  if size = 0 then str
  else
    let w := out.take (size - 1)
    w ++ [0] ++ str.drop (w.length + 1)

/-! ## Path Resolver -/

/-- Models `build_full_path(root_dir, relative_path, full_path, max_len)`; returns `full_path`. -/
def build_full_path (root_dir relative_path full_path : List Nat) (max_len : Nat) :
    List Nat :=
  let full_path :=
    if root_dir.headD 0 = 0 then
      strncpy full_path relative_path (max_len - 1)
    else
      let root_len := strlen root_dir
      let needs_sep :=
        root_dir.getD (root_len - 1) 0 != PATH_SEP && root_dir.getD (root_len - 1) 0 != 47
      if needs_sep then
        snprintf full_path max_len (cstr root_dir ++ cstr PATH_SEP_STR ++ cstr relative_path)
      else
        snprintf full_path max_len (cstr root_dir ++ cstr relative_path)
  full_path.set (max_len - 1) 0

/-- The untruncated join `J` of a root directory and a relative path, as the
specification words it. -/
def join_path (root rel : List Nat) : List Nat :=
  if root = [] then rel
  else if root.getLast? = some PATH_SEP then root ++ rel
  else root ++ [PATH_SEP] ++ rel

/-- The path that the server opens for `relative_path` under `root_dir`: the contents of a
`MAX_PATH_LEN`-byte local array after `build_full_path`. -/
def resolve (uninit : Nat → Nat) (root_dir relative_path : List Nat) : List Nat :=
  cstr (build_full_path root_dir relative_path (stack_array uninit MAX_PATH_LEN) MAX_PATH_LEN)

/-! ## Request Parser -/

/-- Models `strspn(s, accept)` -/
def strspn (s accept : List Nat) : Nat :=
  (s.takeWhile (fun c => c != 0 && (cstr accept).contains c)).length

/-- Models `strcspn(s, reject)` -/
def strcspn (s reject : List Nat) : Nat :=
  (s.takeWhile (fun c => c != 0 && !(cstr reject).contains c)).length

/-- Outcome of one `strtok` call on a buffer: the returned pointer (an offset into the
buffer, `none` for `NULL`), the buffer afterwards, and the position kept for the next
call. -/
structure Strtok where
  token : Option Nat
  mem : List Nat
  save_ptr : Nat

/-- Models `strtok(s, delim)` on the buffer `mem`, where `s` is an offset into `mem` or `none`
for `NULL` (continue from `save_ptr`). -/
def strtok (mem : List Nat) (s : Option Nat) (delim : List Nat) (save_ptr : Nat) : Strtok :=
  let s := s.getD save_ptr
  if mem.getD s 0 = 0 then ⟨none, mem, s⟩
  else
    let s := s + strspn (mem.drop s) delim
    if mem.getD s 0 = 0 then ⟨none, mem, s⟩
    else
      let e := s + strcspn (mem.drop s) delim
      if mem.getD e 0 = 0 then ⟨some s, mem, e⟩
      else ⟨some s, mem.set e 0, e + 1⟩

/-- Result of `recv(client_sock, request, sizeof(request) - 1, 0)`: the return value and
the bytes that arrived. -/
structure Recv where
  ret : Int
  data : List Nat

/-- The `request` array after `memset(request, 0, sizeof(request))` and the `recv` that
stored `data` (at most `sizeof(request) - 1` bytes of it) at its start. -/
def request_buffer (data : List Nat) : List Nat :=
  let request := List.replicate BUFFER_SIZE 0
  let stored := data.take (BUFFER_SIZE - 1)
  stored ++ request.drop stored.length

/-- The pointer `path` after `strtok(request, " "); char *path = strtok(NULL, " ");`:
the memory at the pointer, or `none` for `NULL`. -/
def path_token (request : List Nat) : Option (List Nat) :=
  let t1 := strtok request (some 0) (lit " ") 0
  let t2 := strtok t1.mem none (lit " ") t1.save_ptr
  t2.token.map (fun p => t2.mem.drop p)

/-- The pointer `path` after the defaulting and the removal of a leading slash. -/
def normalize_path (path : Option (List Nat)) : List Nat :=
  match path with
  | none => lit "index.html"
  | some p =>
    if streq p (lit "/") then lit "index.html"
    else if p.headD 0 = 47 then p.drop 1
    else p

/-- The request path that `handle_request` derives from the received bytes. -/
def request_path (data : List Nat) : List Nat :=
  cstr (normalize_path (path_token (request_buffer data)))

/-! ## Date -/

/-- The fields of `struct tm` that the date format reads. -/
structure Tm where
  tm_sec : Nat
  tm_min : Nat
  tm_hour : Nat
  tm_mday : Nat
  tm_mon : Nat
  tm_year : Nat
  tm_wday : Nat

/-- Models `gmtime` for a time at or after the epoch (proleptic Gregorian calendar, computed from
the day number counted in 400-year eras that start on 1 March). -/
def gmtime (rawtime : Nat) : Tm :=
  let days := rawtime / 86400
  let rem := rawtime % 86400
  let z := days + 719468
  let era := z / 146097
  let doe := z % 146097
  let yoe := (doe - doe / 1460 + doe / 36524 - doe / 146096) / 365
  let doy := doe - (365 * yoe + yoe / 4 - yoe / 100)
  let mp := (5 * doy + 2) / 153
  let d := doy - (153 * mp + 2) / 5 + 1
  let m := if mp < 10 then mp + 3 else mp - 9
  let y := yoe + era * 400 + (if m ≤ 2 then 1 else 0)
  { tm_sec := rem % 60, tm_min := rem % 3600 / 60, tm_hour := rem / 3600,
    tm_mday := d, tm_mon := m - 1, tm_year := y - 1900, tm_wday := (days + 4) % 7 }

/-- Decimal digits of a number, most significant first (structural in the fuel). -/
def decimalAux : Nat → Nat → List Nat
  | 0, _ => []
  | fuel + 1, n => if n < 10 then [48 + n] else decimalAux fuel (n / 10) ++ [48 + n % 10]

/-- Decimal representation of a natural number, as `%d` prints it. -/
def decimal (n : Nat) : List Nat := decimalAux (n + 1) n

/-- A two-digit field of `strftime` (`%d`, `%H`, `%M`, `%S`). -/
def two_digits (n : Nat) : List Nat := [48 + n / 10 % 10, 48 + n % 10]

/-- Models `%a` in the C locale. -/
def wday_abbrev (tm_wday : Nat) : List Nat :=
  s2b ((["Sun", "Mon", "Tue", "Wed", "Thu", "Fri", "Sat"].getD tm_wday "?"))

/-- Models `%b` in the C locale. -/
def mon_abbrev (tm_mon : Nat) : List Nat :=
  s2b ((["Jan", "Feb", "Mar", "Apr", "May", "Jun", "Jul", "Aug", "Sep", "Oct", "Nov",
    "Dec"].getD tm_mon "?"))

/-- The expansion of the format `"%a, %d %b %Y %H:%M:%S GMT"`. -/
def format_http_date (t : Tm) : List Nat :=
  wday_abbrev t.tm_wday ++ s2b ", " ++ two_digits t.tm_mday ++ s2b " " ++
    mon_abbrev t.tm_mon ++ s2b " " ++ decimal (t.tm_year + 1900) ++ s2b " " ++
    two_digits t.tm_hour ++ s2b ":" ++ two_digits t.tm_min ++ s2b ":" ++
    two_digits t.tm_sec ++ s2b " GMT"

/-- Models `strftime(s, max, format, tm)`, where `out` is the expansion of the format: stored
with a terminating NUL when it fits in `max` bytes; otherwise the array is left as it was
(the C standard leaves its contents unspecified in that case). -/
def strftime (s : List Nat) (max : Nat) (out : List Nat) : List Nat :=
  if out.length + 1 ≤ max then out ++ [0] ++ s.drop (out.length + 1) else s

/-- Models `get_gmt_date(date_buffer, max_len)` when `time` reports `rawtime`; returns
`date_buffer`. -/
def get_gmt_date (date_buffer : List Nat) (max_len : Nat) (rawtime : Nat) : List Nat :=
  let timeinfo := gmtime rawtime
  strftime date_buffer max_len (format_http_date timeinfo)

/-! ## Response Writer -/

/-- The file system: the contents of the file that `fopen(path, "rb")` opens, or `none`
when the open fails. -/
abbrev FS := List Nat → Option (List Nat)

/-- Models `LONG_MAX` -/
def LONG_MAX : Nat := 2 ^ 63 - 1

/-- Models `fseek(fp, 0, SEEK_END); ftell(fp)`: the size of the file, or -1 when it does not fit
a `long`. -/
def ftell_end (contents : List Nat) : Int :=
  if contents.length ≤ LONG_MAX then (contents.length : Int) else -1

/-- The conversion `%ld`. -/
def fmt_ld (v : Int) : List Nat :=
  if v < 0 then 45 :: decimal v.natAbs else decimal v.toNat

/-- The loop `while ((bytes_read = fread(file_buffer, 1, sizeof(file_buffer), fp)) > 0)
send(client_sock, file_buffer, bytes_read, 0);` on the unread rest of the file: the
buffers sent.  Every iteration consumes at least one byte, so a fuel above the length of
the rest is never exhausted. -/
def fread_loop : Nat → List Nat → List (List Nat)
  | 0, _ => []
  | fuel + 1, rest =>
    let chunk := rest.take BUFFER_SIZE
    if chunk.length > 0 then chunk :: fread_loop fuel (rest.drop BUFFER_SIZE) else []

/-- The formatted header of `send_http_response`, before it is stored in `header`. -/
def format_header (status_line date_str : List Nat) (file_size : Int) : List Nat :=
  cstr status_line ++ s2b "\r\n" ++
    s2b "Content-Type: text/html\r\n" ++
    s2b "Date: " ++ cstr date_str ++ s2b "\r\n" ++
    s2b "Content-Length: " ++ fmt_ld file_size ++ s2b "\r\n" ++
    s2b "\r\n"

/-- Models `send_http_response(client_sock, status_line, filename, date_str, root_dir)`: the
buffers it passes to `send`. -/
def send_http_response (fs : FS) (uninit : Nat → Nat)
    (status_line filename date_str root_dir : List Nat) : List (List Nat) :=
  let full_path :=
    build_full_path root_dir filename (stack_array uninit MAX_PATH_LEN) MAX_PATH_LEN
  match fs (cstr full_path) with
  | none => []
  | some contents =>
    let file_size := ftell_end contents
    let header :=
      snprintf (stack_array uninit 512) 512 (format_header status_line date_str file_size)
    header.take (strlen header) :: fread_loop (contents.length + 1) contents

/-! ## Request handling -/

/-- The configuration structure `Config`. -/
structure Config where
  port : Int
  listen_addr : List Nat
  root_dir : List Nat
  exec_start : List Nat
  exec_start_win : List Nat
  exec_start_linux : List Nat
  exec_start_macos : List Nat

/-- Models `handle_request(client_sock, config)` when the clock reads `now` and `recv` yields
`rcv`: the return value and the buffers passed to `send`. -/
def handle_request (fs : FS) (uninit : Nat → Nat) (now : Nat) (rcv : Recv)
    (config : Config) : Int × List (List Nat) :=
  let bytes_received := rcv.ret
  if bytes_received ≤ 0 then (1, [])
  else
    let path := normalize_path (path_token (request_buffer rcv.data))
    let date_buffer := get_gmt_date (stack_array uninit 128) 128 now
    let full_path :=
      build_full_path config.root_dir path (stack_array uninit MAX_PATH_LEN) MAX_PATH_LEN
    match fs (cstr full_path) with
    | some _ =>
      (1, send_http_response fs uninit (lit "HTTP/1.1 200 OK") path date_buffer
        config.root_dir)
    | none =>
      let full_404_path :=
        build_full_path config.root_dir (lit "404.html") (stack_array uninit MAX_PATH_LEN)
          MAX_PATH_LEN
      match fs (cstr full_404_path) with
      | some _ =>
        (1, send_http_response fs uninit (lit "HTTP/1.1 404 Not Found") (lit "404.html")
          date_buffer config.root_dir)
      | none => (1, [])

/-! ## Specification-level vocabulary -/

/-- The tokens of a text for a given set of delimiters: the text is split at every
delimiter and the empty pieces are discarded. -/
def tokens (delim : Nat → Bool) (text : List Nat) : List (List Nat) :=
  (text.splitOnP delim).filter (fun t => !t.isEmpty)

/-- The space character, the only delimiter passed to `strtok`. -/
def is_space (c : Nat) : Bool := c == 32

/-- White space as the specification lists it: space, tab, carriage return, line feed. -/
def is_whitespace (c : Nat) : Bool := c == 32 || c == 9 || c == 13 || c == 10

/-- The first space-delimited token of a text and the text that follows the delimiter
which ends it. -/
def first_token (text : List Nat) : List Nat × List Nat :=
  let s := text.dropWhile is_space
  (s.takeWhile (fun c => !is_space c), (s.dropWhile (fun c => !is_space c)).drop 1)

/-- The normalization of the path token as the specification words it: no token or the
token `/` gives `index.html`; otherwise one leading `/` is removed. -/
def spec_normalize (token : Option (List Nat)) : List Nat :=
  match token with
  | none => s2b "index.html"
  | some t =>
    if t = s2b "/" then s2b "index.html"
    else if t.head? = some 47 then t.tail
    else t

/-- The response header as the specification gives it, for a file of `size` bytes. -/
def http_header (status_line date_str : List Nat) (size : Nat) : List Nat :=
  status_line ++ s2b "\r\n" ++
    s2b "Content-Type: text/html\r\n" ++
    s2b "Date: " ++ date_str ++ s2b "\r\n" ++
    s2b "Content-Length: " ++ decimal size ++ s2b "\r\n\r\n"

/-- A response with the given status line that carries a file: the header followed by
the bytes of the file. -/
def http_response (status_line date_str contents : List Nat) : List Nat :=
  http_header status_line date_str contents.length ++ contents

/-- A file system that holds a single file. -/
def fs_single (path contents : List Nat) : FS :=
  fun q => if q = path then some contents else none

/-- The file system of the specification's example: `index.html` and `404.html`. -/
def fs_example : FS :=
  fun q =>
    if q = s2b "index.html" then some (s2b "Hello World!")
    else if q = s2b "404.html" then some (s2b "Not Found")
    else none

/-- The relative path of `index.html` below `depth` nested directories named
`aaaaaaaaa`. -/
def deep_path (depth : Nat) : List Nat :=
  (List.replicate depth (s2b "aaaaaaaaa/")).flatten ++ s2b "index.html"

/-- A configuration with an empty root directory. -/
def config_no_root : Config :=
  { port := 8080, listen_addr := lit "127.0.0.1", root_dir := [0], exec_start := [0],
    exec_start_win := [0], exec_start_linux := [0], exec_start_macos := [0] }

/-- The date string that `handle_request` passes on: the contents of its local
`date_buffer[128]` after `get_gmt_date(date_buffer, sizeof(date_buffer))`. -/
def current_date (uninit : Nat → Nat) (now : Nat) : List Nat :=
  cstr (get_gmt_date (stack_array uninit 128) 128 now)

/-! ## Signals and the accept loop -/

/-- Models `SIGINT` -/
def SIGINT : Int := 2

/-- Models `SIGTERM` -/
def SIGTERM : Int := 15

/-- Whether the process runs, was ended by `_exit(code)` in the signal handler, or has
returned `code` from `main`. -/
inductive Status where
  | running
  | forced_exit (code : Int)
  | returned (code : Int)
  deriving DecidableEq, Repr

/-- The statement of `main` that the main thread executes next. -/
inductive Pc where
  | loop_test
  | select
  | accept
  | handle
  | cleanup
  deriving DecidableEq, Repr

/-- The state of the server process: the global `g_run`, the handler's static `called`,
the position of the main thread, the process status, the number of `accept` calls made
and, for every handled connection, the buffers sent on it. -/
structure Server where
  g_run : Int
  called : Int
  pc : Pc
  status : Status
  accepts : Nat
  sent : List (List (List Nat))

/-- The state when `main` reaches its loop: `g_run = 1`, `called = 0`. -/
def Server.init : Server :=
  { g_run := 1, called := 0, pc := Pc.loop_test, status := Status.running, accepts := 0,
    sent := [] }

/-- Models `signal_handler(signal)`, run to completion. -/
def signal_handler (signal : Int) (st : Server) : Server :=
  if signal = SIGINT ∨ signal = SIGTERM then
    if st.called ≠ 0 then { st with status := Status.forced_exit 0 }
    else { st with called := 1, g_run := 0 }
  else st

/-- What the environment answers to the main thread during one step: the results of
`select`, `accept` and `recv`, the clock, the file system and the initial contents of
local arrays. -/
structure Env where
  select_result : Int
  client_sock : Int
  rcv : Recv
  now : Nat
  fs : FS
  uninit : Nat → Nat

/-- One step of the main thread in the loop of `main`. -/
def main_step (config : Config) (env : Env) (st : Server) : Server :=
  match st.pc with
  | Pc.loop_test =>
    if st.g_run ≠ 0 then { st with pc := Pc.select } else { st with pc := Pc.cleanup }
  | Pc.select =>
    if env.select_result < 0 then
      if st.g_run = 0 then { st with pc := Pc.cleanup } else { st with pc := Pc.cleanup }
    else if env.select_result = 0 then { st with pc := Pc.loop_test }
    else { st with pc := Pc.accept }
  | Pc.accept =>
    if env.client_sock < 0 then
      if st.g_run = 0 then { st with pc := Pc.cleanup, accepts := st.accepts + 1 }
      else { st with pc := Pc.cleanup, accepts := st.accepts + 1 }
    else { st with pc := Pc.handle, accepts := st.accepts + 1 }
  | Pc.handle =>
    let r := handle_request env.fs env.uninit env.now env.rcv config
    let g_run := if r.1 = 0 then 0 else st.g_run
    { st with g_run := g_run, pc := Pc.loop_test, sent := st.sent ++ [r.2] }
  | Pc.cleanup => { st with status := Status.returned 0 }

/-- What happens next: a signal is delivered to the handler, or the main thread takes a
step. -/
inductive Event where
  | signal (sig : Int)
  | step (env : Env)

/-- The effect of one event; nothing happens any more once the process has ended. -/
def Server.next (config : Config) (st : Server) (ev : Event) : Server :=
  match st.status with
  | Status.running =>
    match ev with
    | Event.signal sig => signal_handler sig st
    | Event.step env => main_step config env st
  | _ => st

/-- The effect of a sequence of events. -/
def Server.run (config : Config) (st : Server) (evs : List Event) : Server :=
  evs.foldl (Server.next config) st

/-- Whether an event is the delivery of a termination signal (`SIGINT` or `SIGTERM`). -/
def Event.is_termination : Event → Bool
  | Event.signal sig => decide (sig = SIGINT ∨ sig = SIGTERM)
  | Event.step _ => false

/-- Whether an event is a step of the main thread. -/
def Event.is_step : Event → Bool
  | Event.step _ => true
  | Event.signal _ => false

/-- The last second of the year 9999, as a `time_t`. -/
def TIME_Y9999 : Nat := 253402300799

/-- The outcome of `handle_request` written as a function of the date string: the clock
and the initial contents of local arrays enter in no other way (`handle_request_eq_on_date`). -/
def dispatch_on_date (fs : FS) (config : Config) (rcv : Recv) (date : List Nat) :
    Int × List (List Nat) :=
  if rcv.ret ≤ 0 then (1, [])
  else
    match fs ((join_path (cstr config.root_dir) (request_path rcv.data)).take
        (MAX_PATH_LEN - 1)) with
    | some c =>
      (1, format_header (lit "HTTP/1.1 200 OK") date (ftell_end c)
        :: fread_loop (c.length + 1) c)
    | none =>
      match fs ((join_path (cstr config.root_dir) (s2b "404.html")).take
          (MAX_PATH_LEN - 1)) with
      | some c =>
        (1, format_header (lit "HTTP/1.1 404 Not Found") date (ftell_end c)
          :: fread_loop (c.length + 1) c)
      | none => (1, [])

/-! ## Configuration -/

/-- Models `isspace` in the C locale. -/
def isspace (c : Nat) : Bool := c == 32 || (9 ≤ c && c ≤ 13)

/-- Models `isdigit` -/
def isdigit (c : Nat) : Bool := 48 ≤ c && c ≤ 57

/-- Models `INT_MAX` -/
def INT_MAX : Int := 2 ^ 31 - 1

/-- Models `INT_MIN` -/
def INT_MIN : Int := -(2 ^ 31)

/-- The value of the longest run of decimal digits at the start of a text, accumulated
onto `acc`. -/
def atoi_digits : List Nat → Nat → Nat
  | [], acc => acc
  | c :: rest, acc => if isdigit c then atoi_digits rest (acc * 10 + (c - 48)) else acc

/-- Models `atoi(nptr)`: leading white space is skipped, an optional sign is read, then the
longest run of decimal digits; what follows is ignored.  The result is `none` when the
value is not representable in an `int`, where the C standard leaves the behaviour
undefined. -/
def atoi (nptr : List Nat) : Option Int :=
  let s := (cstr nptr).dropWhile isspace
  let neg := s.head? = some 45
  let s := if s.head? = some 45 ∨ s.head? = some 43 then s.drop 1 else s
  let v : Int := atoi_digits s 0
  let r : Int := if neg then -v else v
  if INT_MIN ≤ r ∧ r ≤ INT_MAX then some r else none

/-- Models `EXIT_SUCCESS` -/
def EXIT_SUCCESS : Int := 0

/-- Models `EXIT_FAILURE` -/
def EXIT_FAILURE : Int := 1

/-- How `load_config` ends: with `exit(code)`, by returning with the configuration
filled in, or in a way the C standard does not define. -/
inductive LoadResult where
  | exited (code : Int)
  | loaded (config : Config)
  | undefined

/-- Models `load_config(config, argc, argv)`, where `file` is the effect on the configuration of
the `parse_config` call that reads the configuration file (the identity when there is no
file). -/
def load_config (file : Config → Config) (config : Config) (argv : List (List Nat)) :
    LoadResult :=
  let argc := argv.length
  if argc > 1 ∧ (streq (argv.getD 1 []) (lit "--version") ∨ streq (argv.getD 1 []) (lit "-v"))
  then LoadResult.exited EXIT_SUCCESS
  else
    let config := file config
    if argc > 1 then
      if streq (argv.getD 1 []) (lit "--port") ∧ argc > 2 then
        match atoi (argv.getD 2 []) with
        | none => LoadResult.undefined
        | some port =>
          let config := { config with port := port }
          if config.port ≤ 0 then LoadResult.exited EXIT_FAILURE
          else LoadResult.loaded config
      else LoadResult.loaded config
    else LoadResult.loaded config

/-- The port that `create_server_socket` puts in the address it binds:
`server_addr.sin_port = htons(config->port)`, where `htons` takes a 16-bit unsigned
value. -/
def bound_port (config : Config) : Int := config.port % 65536

/-! ## Configuration file name -/

/-- Models `tolower` in the C locale. -/
def tolower (c : Nat) : Nat := if 65 ≤ c ∧ c ≤ 90 then c + 32 else c

/-- Models `strcasecmp(a, b) == 0`. -/
def strcaseeq (a b : List Nat) : Bool := (cstr a).map tolower == (cstr b).map tolower

/-- Models `strrchr(s, c)` for a character `c` other than NUL: the offset of the last
occurrence of `c` in the string, or `none` for `NULL`. -/
def strrchr (s : List Nat) (c : Nat) : Option Nat :=
  let t := cstr s
  let after := t.reverse.takeWhile (fun x => x != c)
  if after.length < t.length then some (t.length - 1 - after.length) else none

/-- Models `strchr(s, c)` for a character `c` other than NUL: the offset of the first
occurrence of `c` in the string, or `none` for `NULL`. -/
def strchr (s : List Nat) (c : Nat) : Option Nat :=
  let t := cstr s
  let before := t.takeWhile (fun x => x != c)
  if before.length < t.length then some before.length else none

/-- Models `get_config_filename(argv0, config_file, max_len)`; returns `config_file`. -/
def get_config_filename (uninit : Nat → Nat) (argv0 config_file : List Nat)
    (max_len : Nat) : List Nat :=
  let exe_path := stack_array uninit MAX_PATH_LEN
  let exe_path := strncpy exe_path argv0 (MAX_PATH_LEN - 1)
  let exe_path := exe_path.set (MAX_PATH_LEN - 1) 0
  let ext := strrchr exe_path 46
  let exe_path :=
    match ext with
    | some e => if strcaseeq (exe_path.drop e) (lit ".exe") then exe_path.set e 0 else exe_path
    | none => exe_path
  let underscore := strchr exe_path 95
  let exe_path :=
    match underscore with
    | some u => exe_path.set u 0
    | none => exe_path
  snprintf config_file max_len (cstr exe_path ++ s2b ".ini")

/-- The file name that `load_config` passes to `parse_config`: the contents of its local
`config_file[MAX_PATH_LEN]` after `get_config_filename(argv[0], config_file,
sizeof(config_file))`. -/
def config_file_name (uninit : Nat → Nat) (argv : List (List Nat)) : List Nat :=
  cstr (get_config_filename uninit (argv.getD 0 []) (stack_array uninit MAX_PATH_LEN)
    MAX_PATH_LEN)

/-- Whether a name ends with the extension `.exe`, in any letter case. -/
def has_exe_suffix (name : List Nat) : Bool :=
  (name.drop (name.length - 4)).map tolower == s2b ".exe"

/-- A name with a trailing `.exe` extension (in any letter case) removed, if present, as
the specification words it. -/
def strip_exe (name : List Nat) : List Nat :=
  if has_exe_suffix name then name.take (name.length - 4) else name

/-- The invocation path of the binary `showdocs0` below fifty nested directories named
`aaaaaaaaa`: 509 bytes. -/
def deep_argv0 : List Nat :=
  (List.replicate 50 (s2b "aaaaaaaaa/")).flatten ++ s2b "showdocs0"

/-- Models `LONG_MIN`. -/
def LONG_MIN : Int := -(2 ^ 63)

/-! ## Lemmas on C strings -/

theorem cstr_ne_zero (p : List Nat) : ∀ c ∈ cstr p, c ≠ 0 := by
  intro c hc
  have h := List.mem_takeWhile_imp hc
  simpa using h

theorem cstr_of_ne_zero (l : List Nat) (h : ∀ c ∈ l, c ≠ 0) : cstr l = l := by
  unfold cstr
  rw [List.takeWhile_eq_self_iff]
  intro c hc
  simpa using h c hc

theorem cstr_append_nul (l rest : List Nat) (h : ∀ c ∈ l, c ≠ 0) :
    cstr (l ++ 0 :: rest) = l := by
  unfold cstr
  rw [List.takeWhile_append_of_pos]
  · simp
  · intro c hc
    simpa using h c hc

theorem cstr_idem (p : List Nat) : cstr (cstr p) = cstr p :=
  cstr_of_ne_zero _ (cstr_ne_zero p)

theorem cstr_set_zero (l : List Nat) (i : Nat) : cstr (l.set i 0) = (cstr l).take i := by
  induction l generalizing i with
  | nil => simp [cstr]
  | cons a t ih =>
    cases i with
    | zero => simp [cstr, List.takeWhile]
    | succ j =>
      by_cases ha : a = 0
      · subst ha
        simp [cstr, List.takeWhile]
      · have ih2 := ih j
        simp only [cstr] at ih2
        simp [cstr, List.takeWhile_cons, ha, ih2]

theorem take_ne_zero (l : List Nat) (n : Nat) (h : ∀ c ∈ l, c ≠ 0) :
    ∀ c ∈ l.take n, c ≠ 0 :=
  fun c hc => h c (List.mem_of_mem_take hc)

theorem cstr_strncpy (dest src : List Nat) (n : Nat) :
    (cstr (strncpy dest src n)).take n = (cstr src).take n := by
  unfold strncpy
  have hnz := take_ne_zero (cstr src) n (cstr_ne_zero src)
  by_cases hlt : ((cstr src).take n).length < n
  · obtain ⟨k, hk⟩ : ∃ k, n - ((cstr src).take n).length = k + 1 :=
      ⟨n - ((cstr src).take n).length - 1, by omega⟩
    simp only [hk, List.replicate_succ, List.append_assoc, List.cons_append]
    rw [cstr_append_nul _ _ hnz]
    simp
  · have hlen : ((cstr src).take n).length = n := by
      have := List.length_take_le n (cstr src)
      omega
    have h0 : n - ((cstr src).take n).length = 0 := by omega
    simp only [h0, List.replicate_zero, List.append_nil]
    have hc : cstr ((cstr src).take n ++ dest.drop n)
        = (cstr src).take n ++ cstr (dest.drop n) := by
      unfold cstr
      rw [List.takeWhile_append_of_pos]
      intro c hc
      simpa using hnz c hc
    rw [hc, List.take_append_of_le_length hlen.ge, List.take_of_length_le hlen.le]

theorem cstr_snprintf (str out : List Nat) (size : Nat) (hs : 1 ≤ size)
    (h : ∀ c ∈ out, c ≠ 0) : cstr (snprintf str size out) = out.take (size - 1) := by
  unfold snprintf
  have hs0 : size ≠ 0 := by omega
  simp only [hs0, if_false, List.append_assoc, List.singleton_append]
  exact cstr_append_nul _ _ (take_ne_zero out _ h)

theorem headD_eq_zero_iff (p : List Nat) : p.headD 0 = 0 ↔ cstr p = [] := by
  cases p with
  | nil => simp [cstr]
  | cons a t =>
    by_cases ha : a = 0
    · simp [cstr, List.takeWhile_cons, ha]
    · simp [cstr, List.takeWhile_cons, ha]

theorem cstr_append_rest (p : List Nat) : cstr p ++ p.dropWhile (fun c => c != 0) = p :=
  List.takeWhile_append_dropWhile _ p

theorem getD_last_cstr (p : List Nat) (h : cstr p ≠ []) :
    some (p.getD (strlen p - 1) 0) = (cstr p).getLast? := by
  have hlen : 0 < (cstr p).length := List.length_pos.mpr h
  have hp : p.getD (strlen p - 1) 0 = (cstr p).getD (strlen p - 1) 0 := by
    have e := cstr_append_rest p
    have hi : strlen p - 1 < (cstr p).length := by unfold strlen; omega
    have hg := List.getD_append (cstr p) (p.dropWhile (fun c => c != 0)) 0 (strlen p - 1) hi
    rw [e] at hg
    exact hg
  rw [hp, List.getLast?_eq_getElem?]
  unfold strlen
  rw [List.getD_eq_getElem?_getD]
  have hlt : (cstr p).length - 1 < (cstr p).length := by omega
  rw [List.getElem?_eq_getElem hlt]
  simp

theorem join_path_ne_zero (root rel : List Nat) :
    ∀ c ∈ join_path (cstr root) (cstr rel), c ≠ 0 := by
  intro c hc
  unfold join_path at hc
  split at hc
  · exact cstr_ne_zero rel c hc
  · split at hc
    · rcases List.mem_append.mp hc with h | h
      · exact cstr_ne_zero root c h
      · exact cstr_ne_zero rel c h
    · rcases List.mem_append.mp hc with h | h
      · rcases List.mem_append.mp h with h | h
        · exact cstr_ne_zero root c h
        · simp [PATH_SEP] at h
          omega
      · exact cstr_ne_zero rel c h

theorem cstr_build_full_path (root_dir relative_path full_path : List Nat) (max_len : Nat)
    (h : 1 ≤ max_len) :
    cstr (build_full_path root_dir relative_path full_path max_len)
      = (join_path (cstr root_dir) (cstr relative_path)).take (max_len - 1) := by
  unfold build_full_path
  simp only []
  rw [cstr_set_zero]
  by_cases hr : root_dir.headD 0 = 0
  · have hr2 := (headD_eq_zero_iff root_dir).mp hr
    simp only [hr, if_true, join_path, hr2]
    exact cstr_strncpy _ _ _
  · have hr2 : cstr root_dir ≠ [] := fun hc => hr ((headD_eq_zero_iff root_dir).mpr hc)
    have hlast := getD_last_cstr root_dir hr2
    have hnz := join_path_ne_zero root_dir relative_path
    simp only [hr, if_false]
    by_cases hsep : root_dir.getD (strlen root_dir - 1) 0 = 47
    · have hj : join_path (cstr root_dir) (cstr relative_path)
          = cstr root_dir ++ cstr relative_path := by
        unfold join_path
        rw [if_neg hr2, ← hlast, hsep, if_pos (by rfl)]
      rw [hj] at hnz ⊢
      rw [hsep, show PATH_SEP = 47 from rfl]
      simp only [bne_self_eq_false, Bool.false_and, Bool.false_eq_true, if_false]
      rw [cstr_snprintf _ _ _ h hnz, List.take_take, min_self]
    · have hj : join_path (cstr root_dir) (cstr relative_path)
          = cstr root_dir ++ cstr PATH_SEP_STR ++ cstr relative_path := by
        unfold join_path
        rw [if_neg hr2, ← hlast, show PATH_SEP = 47 from rfl,
          if_neg (fun hc => hsep (Option.some.inj hc))]
        rfl
      rw [hj] at hnz ⊢
      have hb : (root_dir.getD (strlen root_dir - 1) 0 != PATH_SEP
          && root_dir.getD (strlen root_dir - 1) 0 != 47) = true := by
        have hne : (root_dir.getD (strlen root_dir - 1) 0 != 47) = true := bne_iff_ne.mpr hsep
        rw [show PATH_SEP = 47 from rfl, hne]
        rfl
      simp only [hb, if_true]
      rw [cstr_snprintf _ _ _ h hnz, List.take_take, min_self]

/-! ## Lemmas on `strtok` -/

theorem takeWhile_nz_and (m : List Nat) (q : Nat → Bool) :
    m.takeWhile (fun c => c != 0 && q c) = (cstr m).takeWhile q := by
  induction m with
  | nil => simp [cstr]
  | cons a t ih =>
    by_cases ha : a = 0
    · simp [cstr, List.takeWhile_cons, ha]
    · simp only [cstr] at ih
      by_cases hq : q a = true
      · simp [cstr, List.takeWhile_cons, ha, hq, ih]
      · simp [cstr, List.takeWhile_cons, ha, hq]

theorem cstr_dropWhile_nz_and (m : List Nat) (q : Nat → Bool) :
    cstr (m.dropWhile (fun c => c != 0 && q c)) = (cstr m).dropWhile q := by
  induction m with
  | nil => simp [cstr]
  | cons a t ih =>
    by_cases ha : a = 0
    · simp [cstr, List.takeWhile_cons, List.dropWhile_cons, ha]
    · simp only [cstr] at ih
      by_cases hq : q a = true
      · simp [cstr, List.takeWhile_cons, List.dropWhile_cons, ha, hq, ih]
      · simp [cstr, List.takeWhile_cons, List.dropWhile_cons, ha, hq]

theorem drop_length_takeWhile (m : List Nat) (p : Nat → Bool) :
    m.drop (m.takeWhile p).length = m.dropWhile p := by
  induction m with
  | nil => simp
  | cons a t ih =>
    by_cases hp : p a = true
    · simp [List.takeWhile_cons, List.dropWhile_cons, hp, ih]
    · simp [List.takeWhile_cons, List.dropWhile_cons, hp]

theorem getD_add (mem : List Nat) (i k : Nat) :
    mem.getD (i + k) 0 = ((mem.drop i).drop k).headD 0 := by
  rw [List.drop_drop, List.getD_eq_getElem?_getD, List.headD_eq_head?_getD, List.head?_drop]

theorem cstr_lit_space : cstr (lit " ") = [32] := by decide

theorem strspn_space (m : List Nat) :
    strspn m (lit " ") = (m.takeWhile (fun c => c != 0 && is_space c)).length := by
  unfold strspn
  rw [cstr_lit_space]
  congr 2
  funext c
  cases h : (c == 32) <;> simp [is_space, List.contains, List.elem, h]

theorem strcspn_space (m : List Nat) :
    strcspn m (lit " ") = (m.takeWhile (fun c => c != 0 && !is_space c)).length := by
  unfold strcspn
  rw [cstr_lit_space]
  congr 2
  funext c
  cases h : (c == 32) <;> simp [is_space, List.contains, List.elem, h]

theorem cstr_drop_one (m : List Nat) (h : m.headD 0 ≠ 0) :
    cstr (m.drop 1) = (cstr m).drop 1 := by
  cases m with
  | nil => simp [cstr]
  | cons a t =>
    have ha : a ≠ 0 := by simpa using h
    simp [cstr, List.takeWhile_cons, ha]

theorem take_length_takeWhile (l : List Nat) (p : Nat → Bool) :
    l.take (l.takeWhile p).length = l.takeWhile p := by
  induction l with
  | nil => simp
  | cons a t ih =>
    by_cases hp : p a = true
    · simp [List.takeWhile_cons, hp, ih]
    · simp [List.takeWhile_cons, hp]

theorem takeWhile_eq_self_of_dropWhile_nil (l : List Nat) (p : Nat → Bool)
    (h : l.dropWhile p = []) : l.takeWhile p = l := by
  have e := List.takeWhile_append_dropWhile p l
  rw [h, List.append_nil] at e
  exact e

/-- What one `strtok(·, " ")` call does, in terms of the text at the position where it
starts scanning. -/
theorem strtok_spec (mem : List Nat) (s : Option Nat) (sp i : Nat) (hi : s.getD sp = i) :
    ((strtok mem s (lit " ") sp).token.map
        (fun p => cstr ((strtok mem s (lit " ") sp).mem.drop p))
      = if (cstr (mem.drop i)).dropWhile is_space = [] then none
        else some (first_token (cstr (mem.drop i))).1)
    ∧ cstr ((strtok mem s (lit " ") sp).mem.drop (strtok mem s (lit " ") sp).save_ptr)
      = (first_token (cstr (mem.drop i))).2 := by
  have h0 : mem.getD i 0 = (mem.drop i).headD 0 := by
    have := getD_add mem i 0
    rwa [Nat.add_zero, List.drop_zero] at this
  unfold strtok
  simp only [hi]
  by_cases hA : mem.getD i 0 = 0
  · have ht : cstr (mem.drop i) = [] := (headD_eq_zero_iff _).mp (h0 ▸ hA)
    rw [if_pos hA]
    simp [ht, first_token]
  · rw [if_neg hA]
    rw [strspn_space, getD_add, drop_length_takeWhile]
    have hs1 := cstr_dropWhile_nz_and (mem.drop i) is_space
    by_cases hB : ((mem.drop i).dropWhile (fun c => c != 0 && is_space c)).headD 0 = 0
    · have ht : (cstr (mem.drop i)).dropWhile is_space = [] := by
        rw [← hs1]
        exact (headD_eq_zero_iff _).mp hB
      rw [if_pos hB]
      simp only [Option.map_none', ht, if_true, true_and]
      rw [← List.drop_drop, drop_length_takeWhile, hs1, ht]
      simp [first_token, ht]
    · have ht : (cstr (mem.drop i)).dropWhile is_space ≠ [] := by
        rw [← hs1]
        exact fun hc => hB ((headD_eq_zero_iff _).mpr hc)
      rw [if_neg hB, if_neg ht]
      have hk2 : mem.drop (i + ((mem.drop i).takeWhile
          (fun c => c != 0 && is_space c)).length)
          = (mem.drop i).dropWhile (fun c => c != 0 && is_space c) := by
        rw [← List.drop_drop, drop_length_takeWhile]
      generalize ((mem.drop i).takeWhile (fun c => c != 0 && is_space c)).length = k at hk2 ⊢
      generalize (mem.drop i).dropWhile (fun c => c != 0 && is_space c) = m2 at hk2 hs1 hB ⊢
      rw [hk2, strcspn_space, getD_add, hk2, drop_length_takeWhile]
      have hj3 : mem.drop (i + k + (m2.takeWhile (fun c => c != 0 && !is_space c)).length)
          = m2.dropWhile (fun c => c != 0 && !is_space c) := by
        rw [← List.drop_drop, hk2, drop_length_takeWhile]
      have hs3 := cstr_dropWhile_nz_and m2 (fun c => !is_space c)
      have htok := takeWhile_nz_and m2 (fun c => !is_space c)
      have hft1 : (first_token (cstr (mem.drop i))).1
          = (cstr m2).takeWhile (fun c => !is_space c) := by
        simp only [first_token, hs1]
      have hft2 : (first_token (cstr (mem.drop i))).2
          = ((cstr m2).dropWhile (fun c => !is_space c)).drop 1 := by
        simp only [first_token, hs1]
      rw [hft1, hft2]
      by_cases hC : (m2.dropWhile (fun c => c != 0 && !is_space c)).headD 0 = 0
      · rw [if_pos hC]
        have hnil : (cstr m2).dropWhile (fun c => !is_space c) = [] := by
          rw [← hs3]
          exact (headD_eq_zero_iff _).mp hC
        simp only [Option.map_some', hk2, hj3, hs3, hnil, List.drop_nil]
        rw [takeWhile_eq_self_of_dropWhile_nil _ _ hnil]
        exact ⟨rfl, trivial⟩
      · rw [if_neg hC]
        simp only [Option.map_some']
        constructor
        · rw [List.drop_set, if_neg (by omega), hk2, Nat.add_sub_cancel_left, cstr_set_zero,
            htok, take_length_takeWhile]
        · rw [List.drop_set_of_lt _ _ (by omega), ← List.drop_drop, hj3,
            cstr_drop_one _ hC, hs3]

/-! ## The tokens of a text -/

theorem splitOnP_unfold (d : Nat → Bool) (t : List Nat) :
    t.splitOnP d = t.takeWhile (fun c => !d c) ::
      (if t.dropWhile (fun c => !d c) = [] then []
       else ((t.dropWhile (fun c => !d c)).drop 1).splitOnP d) := by
  induction t with
  | nil => simp
  | cons a u ih =>
    rw [List.splitOnP_cons]
    by_cases ha : d a = true
    · simp [ha, List.takeWhile_cons, List.dropWhile_cons]
    · rw [if_neg ha, ih]
      simp [ha, List.takeWhile_cons, List.dropWhile_cons]

theorem tokens_unfold (text : List Nat) :
    tokens is_space text =
      if text.dropWhile is_space = [] then []
      else (first_token text).1 :: tokens is_space (first_token text).2 := by
  induction text with
  | nil => simp [tokens]
  | cons c t ih =>
    by_cases hc : is_space c = true
    · have h1 : tokens is_space (c :: t) = tokens is_space t := by
        simp [tokens, List.splitOnP_cons, hc]
      have h2 : first_token (c :: t) = first_token t := by
        simp [first_token, List.dropWhile_cons, hc]
      have h3 : (c :: t).dropWhile is_space = t.dropWhile is_space := by
        simp [List.dropWhile_cons, hc]
      rw [h1, h2, h3, ih]
    · have h3 : (c :: t).dropWhile is_space = c :: t := by
        simp [List.dropWhile_cons, hc]
      rw [h3, if_neg (by simp)]
      simp only [first_token, h3]
      unfold tokens
      rw [splitOnP_unfold]
      have hc2 : is_space c = false := by simpa using hc
      have hne : (c :: t).takeWhile (fun c => !is_space c)
          = c :: t.takeWhile (fun c => !is_space c) := by
        simp [List.takeWhile_cons, hc2]
      by_cases hd : (c :: t).dropWhile (fun c => !is_space c) = []
      · simp [hd, hne, List.filter_cons, List.splitOnP_nil]
      · simp [hd, hne, List.filter_cons]

theorem cstr_append_zero (a rest : List Nat) : cstr (a ++ 0 :: rest) = cstr a := by
  induction a with
  | nil => simp [cstr]
  | cons x t ih =>
    simp only [cstr] at ih
    by_cases hx : x = 0
    · simp [cstr, List.takeWhile_cons, hx]
    · simp [cstr, List.takeWhile_cons, hx, ih]

theorem cstr_request_buffer (data : List Nat) :
    cstr (request_buffer data) = cstr (data.take (BUFFER_SIZE - 1)) := by
  unfold request_buffer
  simp only []
  have hlen : (data.take (BUFFER_SIZE - 1)).length ≤ BUFFER_SIZE - 1 :=
    List.length_take_le _ _
  have hd : (List.replicate BUFFER_SIZE 0).drop (data.take (BUFFER_SIZE - 1)).length
      = 0 :: List.replicate (BUFFER_SIZE - 1 - (data.take (BUFFER_SIZE - 1)).length) 0 := by
    rw [List.drop_replicate]
    have hb : BUFFER_SIZE = 4096 := rfl
    rw [hb] at hlen ⊢
    obtain ⟨n, hn⟩ : ∃ n, 4096 - (data.take (4096 - 1)).length = n + 1 :=
      ⟨4096 - (data.take (4096 - 1)).length - 1, by omega⟩
    rw [hn, List.replicate_succ]
    congr 2
    omega
  rw [hd, cstr_append_zero]

/-- The pointer left by the two `strtok` calls denotes the second space-delimited token
of the text in the buffer. -/
theorem path_token_spec (mem : List Nat) :
    (path_token mem).map cstr = (tokens is_space (cstr mem))[1]? := by
  unfold path_token
  simp only [Option.map_map]
  have h1 := strtok_spec mem (some 0) 0 0 rfl
  have h2 := strtok_spec (strtok mem (some 0) (lit " ") 0).mem none
    (strtok mem (some 0) (lit " ") 0).save_ptr (strtok mem (some 0) (lit " ") 0).save_ptr rfl
  rw [h1.2] at h2
  rw [List.drop_zero] at h1
  have h3 : (cstr ∘ fun p => List.drop p
      (strtok (strtok mem (some 0) (lit " ") 0).mem none (lit " ")
        (strtok mem (some 0) (lit " ") 0).save_ptr).mem)
      = fun p => cstr (List.drop p
        (strtok (strtok mem (some 0) (lit " ") 0).mem none (lit " ")
          (strtok mem (some 0) (lit " ") 0).save_ptr).mem) := rfl
  rw [h3, h2.1, tokens_unfold (cstr mem)]
  by_cases hd : (cstr mem).dropWhile is_space = []
  · have h4 : (first_token (cstr mem)).2 = [] := by
      simp [first_token, hd]
    simp [hd, h4]
  · rw [if_neg hd, tokens_unfold (first_token (cstr mem)).2]
    by_cases hd2 : (first_token (cstr mem)).2.dropWhile is_space = []
    · simp [hd2]
    · simp [hd2]

/-! ## Request Parser: claims -/

theorem head?_cstr (p : List Nat) : (cstr p).head? = some 47 ↔ p.headD 0 = 47 := by
  cases p with
  | nil => simp [cstr]
  | cons a t =>
    by_cases ha : a = 0
    · simp [cstr, List.takeWhile_cons, ha]
    · simp [cstr, List.takeWhile_cons, ha]

theorem cstr_normalize_path (path : Option (List Nat)) :
    cstr (normalize_path path) = spec_normalize (path.map cstr) := by
  cases path with
  | none => decide
  | some p =>
    have hidx : cstr (lit "index.html") = s2b "index.html" := by decide
    have hsl : cstr (lit "/") = s2b "/" := by decide
    simp only [normalize_path, spec_normalize, Option.map_some', streq, hsl, beq_iff_eq]
    by_cases h1 : cstr p = s2b "/"
    · rw [if_pos h1, if_pos h1, hidx]
    · rw [if_neg h1, if_neg h1]
      by_cases h2 : p.headD 0 = 47
      · rw [if_pos h2, if_pos ((head?_cstr p).mpr h2), cstr_drop_one p (by omega)]
        simp
      · rw [if_neg h2, if_neg (fun hc => h2 ((head?_cstr p).mp hc))]

/-- C4. Path normalization in the request parser: for every received request, the parsed
path is `index.html` when the second `strtok` token is absent or is exactly `/`; otherwise
it is the token with exactly one leading `/` removed when the token begins with `/` (so
`//a` becomes `/a`); otherwise it is the token unchanged.  Consequently every request
whose path token is absent, `/`, `/index.html` or `index.html` parses to `index.html`. -/
theorem request_path_normalization (data : List Nat) :
    request_path data = spec_normalize ((path_token (request_buffer data)).map cstr)
    ∧ ((path_token (request_buffer data)).map cstr = none
        ∨ (path_token (request_buffer data)).map cstr = some (s2b "/")
        ∨ (path_token (request_buffer data)).map cstr = some (s2b "/index.html")
        ∨ (path_token (request_buffer data)).map cstr = some (s2b "index.html")
        → request_path data = s2b "index.html")
    ∧ request_path (s2b "GET //a HTTP/1.1") = s2b "/a"
    ∧ request_path (s2b "GET / HTTP/1.1") = request_path (s2b "GET /index.html HTTP/1.1")
    ∧ request_path (s2b "GET") = request_path (s2b "GET index.html HTTP/1.1") := by
  have h := cstr_normalize_path (path_token (request_buffer data))
  refine ⟨h, ?_, by decide, by decide, by decide⟩
  intro hc
  unfold request_path
  rw [h]
  rcases hc with hc | hc | hc | hc <;> rw [hc] <;> decide

/-- C5 (as stated, refuted). The parser does not split on tabs, carriage returns or line
feeds: for `"GET /a.html\r\nHost: x\r\n"` the path token is `"/a.html\r\nHost:"` and for
`"GET\t/a.html HTTP/1.1"` it is `"HTTP/1.1"`, whereas splitting on white space gives
`"/a.html"` for both. -/
theorem path_token_whitespace_counterexample :
    (path_token (request_buffer (s2b "GET /a.html\r\nHost: x\r\n"))).map cstr
        = some (s2b "/a.html\r\nHost:")
    ∧ (tokens is_whitespace (s2b "GET /a.html\r\nHost: x\r\n"))[1]? = some (s2b "/a.html")
    ∧ (path_token (request_buffer (s2b "GET\t/a.html HTTP/1.1"))).map cstr
        = some (s2b "HTTP/1.1")
    ∧ (tokens is_whitespace (s2b "GET\t/a.html HTTP/1.1"))[1]? = some (s2b "/a.html")
    ∧ ¬ (∀ data : List Nat, (path_token (request_buffer data)).map cstr
          = (tokens is_whitespace (cstr (data.take (BUFFER_SIZE - 1))))[1]?) := by
  refine ⟨by decide, by decide, by decide, by decide, ?_⟩
  intro hall
  have h := hall (s2b "GET\t/a.html HTTP/1.1")
  revert h
  decide

/-- C5 (amended). Tokenization in the request parser: for every received request, the
text of the buffer (the first 4095 received bytes, up to the first NUL byte) is split on
the space character only; the first token (the method) is discarded and the second
space-delimited token is the path token, absent when there is none.  For
`"GET /a.html HTTP/1.1\r\nHost: x\r\n\r\n"` the path token is `"/a.html"`. -/
theorem path_token_is_second_space_token (data : List Nat) :
    (path_token (request_buffer data)).map cstr
        = (tokens is_space (cstr (data.take (BUFFER_SIZE - 1))))[1]?
    ∧ (path_token (request_buffer (s2b "GET /a.html HTTP/1.1\r\nHost: x\r\n\r\n"))).map cstr
        = some (s2b "/a.html") := by
  refine ⟨?_, by decide⟩
  rw [path_token_spec, cstr_request_buffer]

/-! ## Path Resolver: claims -/

/-- C6. Path Resolver: for every `root_dir`, `relative_path`, initial content of
`full_path` and `max_len >= 1`, the string left in `full_path` is the first `max_len - 1`
bytes of `J`, where `J` is `relative_path` when `root_dir` is empty, `root_dir ++
relative_path` when `root_dir` ends with a path separator, and `root_dir ++ separator ++
relative_path` otherwise.  Nothing else is altered: `..` segments are kept, and the path
opened for `"../secret"` under `"/srv/www"` is `"/srv/www/../secret"`. -/
theorem build_full_path_is_truncated_join (root_dir relative_path full_path : List Nat)
    (max_len : Nat) (h : 1 ≤ max_len) :
    cstr (build_full_path root_dir relative_path full_path max_len)
        = (join_path (cstr root_dir) (cstr relative_path)).take (max_len - 1)
    ∧ (cstr root_dir = [] →
        join_path (cstr root_dir) (cstr relative_path) = cstr relative_path)
    ∧ (cstr root_dir ≠ [] → (cstr root_dir).getLast? = some PATH_SEP →
        join_path (cstr root_dir) (cstr relative_path) = cstr root_dir ++ cstr relative_path)
    ∧ (cstr root_dir ≠ [] → (cstr root_dir).getLast? ≠ some PATH_SEP →
        join_path (cstr root_dir) (cstr relative_path)
          = cstr root_dir ++ [PATH_SEP] ++ cstr relative_path)
    ∧ (∀ uninit : Nat → Nat,
        resolve uninit (lit "/srv/www") (lit "../secret") = s2b "/srv/www/../secret") := by
  refine ⟨cstr_build_full_path _ _ _ _ h, ?_, ?_, ?_, ?_⟩
  · intro h0
    simp [join_path, h0]
  · intro h0 h1
    simp [join_path, h0, h1]
  · intro h0 h1
    simp [join_path, h0, h1]
  · intro uninit
    unfold resolve
    rw [cstr_build_full_path _ _ _ _ (by decide)]
    decide

/-- C6, at a concrete input: a 16-byte destination truncates the join to 15 bytes. -/
theorem build_full_path_is_truncated_join_witness :
    cstr (build_full_path (lit "/srv/www") (lit "../secret") (List.replicate 16 65) 16)
      = s2b "/srv/www/../sec" :=
  (build_full_path_is_truncated_join (lit "/srv/www") (lit "../secret")
    (List.replicate 16 65) 16 (by decide)).1.trans (by decide)

/-! ## Response Writer: lemmas -/

theorem fread_loop_flatten (fuel : Nat) (rest : List Nat) (h : rest.length < fuel) :
    (fread_loop fuel rest).flatten = rest := by
  induction fuel generalizing rest with
  | zero => omega
  | succ n ih =>
    unfold fread_loop
    simp only []
    by_cases hc : (rest.take BUFFER_SIZE).length > 0
    · rw [if_pos hc]
      have hpos : 0 < rest.length := by
        rw [List.length_take] at hc
        omega
      have hd : (rest.drop BUFFER_SIZE).length < n := by
        rw [List.length_drop]
        have : BUFFER_SIZE = 4096 := rfl
        omega
      rw [List.flatten_cons, ih _ hd, List.take_append_drop]
    · rw [if_neg hc]
      have h0 : rest.length = 0 := by
        rw [List.length_take] at hc
        have : BUFFER_SIZE = 4096 := rfl
        omega
      rw [List.length_eq_zero.mp h0]
      rfl

theorem fread_loop_chunks (fuel : Nat) (rest : List Nat) :
    ∀ c ∈ fread_loop fuel rest, 0 < c.length ∧ c.length ≤ BUFFER_SIZE := by
  induction fuel generalizing rest with
  | zero => intro c hc; simp [fread_loop] at hc
  | succ n ih =>
    intro c hc
    unfold fread_loop at hc
    simp only [] at hc
    by_cases hp : (rest.take BUFFER_SIZE).length > 0
    · rw [if_pos hp] at hc
      rcases List.mem_cons.mp hc with h | h
      · subst h
        exact ⟨hp, List.length_take_le _ _⟩
      · exact ih _ c h
    · rw [if_neg hp] at hc
      simp at hc

theorem fread_loop_length (fuel : Nat) (rest : List Nat) (h : rest.length < fuel) :
    (fread_loop fuel rest).length = (rest.length + (BUFFER_SIZE - 1)) / BUFFER_SIZE := by
  have hb : BUFFER_SIZE = 4096 := rfl
  induction fuel generalizing rest with
  | zero => omega
  | succ n ih =>
    unfold fread_loop
    simp only []
    by_cases hc : (rest.take BUFFER_SIZE).length > 0
    · rw [if_pos hc]
      rw [List.length_take] at hc
      have hd : (rest.drop BUFFER_SIZE).length < n := by
        rw [List.length_drop]
        omega
      rw [List.length_cons, ih _ hd, List.length_drop, hb]
      omega
    · rw [if_neg hc]
      rw [List.length_take] at hc
      have h0 : rest.length = 0 := by omega
      rw [h0, hb]
      rfl

theorem decimalAux_ne_zero (fuel n : Nat) : ∀ c ∈ decimalAux fuel n, c ≠ 0 := by
  induction fuel generalizing n with
  | zero => intro c hc; simp [decimalAux] at hc
  | succ f ih =>
    intro c hc
    unfold decimalAux at hc
    by_cases hn : n < 10
    · rw [if_pos hn] at hc
      simp at hc
      omega
    · rw [if_neg hn] at hc
      rcases List.mem_append.mp hc with h | h
      · exact ih _ c h
      · simp at h
        omega

theorem decimalAux_length (fuel n k : Nat) (hk : 1 ≤ k) (hn : n < 10 ^ k) :
    (decimalAux fuel n).length ≤ k := by
  induction fuel generalizing n k with
  | zero => simp [decimalAux]
  | succ f ih =>
    unfold decimalAux
    by_cases h10 : n < 10
    · rw [if_pos h10]
      simpa using hk
    · rw [if_neg h10]
      have hk2 : 2 ≤ k := by
        by_contra hlt
        have hk1 : k = 1 := by omega
        subst hk1
        omega
      have hdiv : n / 10 < 10 ^ (k - 1) := by
        have hpow : 10 ^ k = 10 * 10 ^ (k - 1) := by
          rw [← pow_succ']
          congr 1
          omega
        rw [Nat.div_lt_iff_lt_mul (by decide)]
        omega
      have := ih (n / 10) (k - 1) (by omega) hdiv
      rw [List.length_append]
      simp only [List.length_singleton]
      omega

theorem fmt_ld_ne_zero (v : Int) : ∀ c ∈ fmt_ld v, c ≠ 0 := by
  intro c hc
  unfold fmt_ld at hc
  split at hc
  · rcases List.mem_cons.mp hc with h | h
    · omega
    · exact decimalAux_ne_zero _ _ c h
  · exact decimalAux_ne_zero _ _ c hc

theorem fmt_ld_ftell_end (contents : List Nat) (h : contents.length ≤ LONG_MAX) :
    fmt_ld (ftell_end contents) = decimal contents.length := by
  unfold ftell_end fmt_ld
  rw [if_pos h, if_neg (by omega)]
  simp

theorem fmt_ld_ftell_end_length (contents : List Nat) :
    (fmt_ld (ftell_end contents)).length ≤ 20 := by
  by_cases h : contents.length ≤ LONG_MAX
  · rw [fmt_ld_ftell_end _ h]
    have h19 : contents.length < 10 ^ 19 := by
      have : LONG_MAX = 9223372036854775807 := by decide
      omega
    have := decimalAux_length (contents.length + 1) contents.length 19 (by decide) h19
    unfold decimal
    omega
  · unfold ftell_end
    rw [if_neg h]
    decide

theorem s2b_ne_zero_of (l : List Nat) (h : (l.all (fun c => c != 0)) = true) :
    ∀ c ∈ l, c ≠ 0 := by
  intro c hc
  have := List.all_eq_true.mp h c hc
  simpa using this

theorem format_header_ne_zero (status_line date_str : List Nat) (file_size : Int) :
    ∀ c ∈ format_header status_line date_str file_size, c ≠ 0 := by
  intro c hc
  unfold format_header at hc
  simp only [List.mem_append] at hc
  rcases hc with ((((((((h | h) | h) | h) | h) | h) | h) | h) | h) | h
  · exact cstr_ne_zero _ c h
  · exact s2b_ne_zero_of _ (by decide) c h
  · exact s2b_ne_zero_of _ (by decide) c h
  · exact s2b_ne_zero_of _ (by decide) c h
  · exact cstr_ne_zero _ c h
  · exact s2b_ne_zero_of _ (by decide) c h
  · exact s2b_ne_zero_of _ (by decide) c h
  · exact fmt_ld_ne_zero _ c h
  · exact s2b_ne_zero_of _ (by decide) c h
  · exact s2b_ne_zero_of _ (by decide) c h

theorem take_strlen (l : List Nat) : l.take (strlen l) = cstr l :=
  take_length_takeWhile l _

theorem resolve_eq (uninit : Nat → Nat) (root_dir relative_path : List Nat) :
    resolve uninit root_dir relative_path
      = (join_path (cstr root_dir) (cstr relative_path)).take (MAX_PATH_LEN - 1) :=
  cstr_build_full_path _ _ _ _ (by decide)

theorem resolve_cstr (uninit : Nat → Nat) (root_dir relative_path : List Nat) :
    resolve uninit root_dir (cstr relative_path) = resolve uninit root_dir relative_path := by
  rw [resolve_eq, resolve_eq, cstr_idem]

/-- What `send_http_response` passes to `send`. -/
theorem send_http_response_eq (fs : FS) (uninit : Nat → Nat)
    (status_line filename date_str root_dir : List Nat) :
    send_http_response fs uninit status_line filename date_str root_dir
      = match fs (resolve uninit root_dir filename) with
        | none => []
        | some contents =>
          (format_header status_line date_str (ftell_end contents)).take 511
            :: fread_loop (contents.length + 1) contents := by
  unfold send_http_response resolve
  simp only []
  cases fs (cstr (build_full_path root_dir filename (stack_array uninit MAX_PATH_LEN)
      MAX_PATH_LEN)) with
  | none => rfl
  | some contents =>
    simp only []
    rw [take_strlen, cstr_snprintf _ _ _ (by decide) (format_header_ne_zero _ _ _)]

theorem format_header_length (status_line date_str : List Nat) (file_size : Int) :
    (format_header status_line date_str file_size).length
      = (cstr status_line).length + (cstr date_str).length + (fmt_ld file_size).length
        + 55 := by
  have e1 : (s2b "\r\n").length = 2 := rfl
  have e2 : (s2b "Content-Type: text/html\r\n").length = 25 := rfl
  have e3 : (s2b "Date: ").length = 6 := rfl
  have e4 : (s2b "Content-Length: ").length = 16 := rfl
  unfold format_header
  simp only [List.length_append, e1, e2, e3, e4]
  omega

theorem format_header_eq_http_header (status_line date_str contents : List Nat)
    (h : contents.length ≤ LONG_MAX) :
    format_header status_line date_str (ftell_end contents)
      = http_header (cstr status_line) (cstr date_str) contents.length := by
  unfold format_header http_header
  rw [fmt_ld_ftell_end _ h]
  have e : s2b "\r\n\r\n" = s2b "\r\n" ++ s2b "\r\n" := by decide
  rw [e]
  simp only [List.append_assoc]

theorem cstr_length_le (l : List Nat) : (cstr l).length ≤ l.length :=
  (List.takeWhile_sublist _).length_le

theorem current_date_length (uninit : Nat → Nat) (now : Nat) :
    (current_date uninit now).length ≤ 128 := by
  unfold current_date get_gmt_date strftime
  simp only []
  split
  · rename_i hfit
    rw [List.append_assoc, List.singleton_append, cstr_append_zero]
    have := cstr_length_le (format_http_date (gmtime now))
    omega
  · have := cstr_length_le (stack_array uninit 128)
    have hl : (stack_array uninit 128).length = 128 := by simp [stack_array]
    omega

/-- For the two status lines of the dispatch logic the header fits its 512-byte array. -/
theorem dispatch_header_fits (status : List Nat) (uninit : Nat → Nat) (now : Nat)
    (contents : List Nat) (hs : (cstr status).length ≤ 22) :
    (format_header status (get_gmt_date (stack_array uninit 128) 128 now)
      (ftell_end contents)).take 511
      = format_header status (get_gmt_date (stack_array uninit 128) 128 now)
          (ftell_end contents) := by
  apply List.take_of_length_le
  rw [format_header_length]
  have h1 := current_date_length uninit now
  unfold current_date at h1
  have h2 := fmt_ld_ftell_end_length contents
  omega

/-- What `handle_request` sends once the read has delivered something. -/
theorem handle_request_eq (fs : FS) (uninit : Nat → Nat) (now : Nat) (rcv : Recv)
    (config : Config) (h : 0 < rcv.ret) :
    handle_request fs uninit now rcv config
      = (1, match fs (resolve uninit config.root_dir (request_path rcv.data)) with
          | some c =>
            format_header (lit "HTTP/1.1 200 OK")
                (get_gmt_date (stack_array uninit 128) 128 now) (ftell_end c)
              :: fread_loop (c.length + 1) c
          | none =>
            match fs (resolve uninit config.root_dir (lit "404.html")) with
            | some c =>
              format_header (lit "HTTP/1.1 404 Not Found")
                  (get_gmt_date (stack_array uninit 128) 128 now) (ftell_end c)
                :: fread_loop (c.length + 1) c
            | none => []) := by
  unfold handle_request
  simp only []
  rw [if_neg (by omega)]
  have hp : cstr (build_full_path config.root_dir
      (normalize_path (path_token (request_buffer rcv.data)))
      (stack_array uninit MAX_PATH_LEN) MAX_PATH_LEN)
      = resolve uninit config.root_dir (request_path rcv.data) := by
    unfold request_path
    rw [resolve_cstr]
    rfl
  have h404 : cstr (build_full_path config.root_dir (lit "404.html")
      (stack_array uninit MAX_PATH_LEN) MAX_PATH_LEN)
      = resolve uninit config.root_dir (lit "404.html") := rfl
  rw [hp, h404, send_http_response_eq, send_http_response_eq]
  have hq : resolve uninit config.root_dir
      (normalize_path (path_token (request_buffer rcv.data)))
      = resolve uninit config.root_dir (request_path rcv.data) := by
    unfold request_path
    rw [resolve_cstr]
  rw [hq]
  cases h1 : fs (resolve uninit config.root_dir (request_path rcv.data)) with
  | some c =>
    simp only []
    rw [dispatch_header_fits _ _ _ _ (by decide)]
  | none =>
    simp only []
    cases h2 : fs (resolve uninit config.root_dir (lit "404.html")) with
    | some c =>
      simp only []
      rw [dispatch_header_fits _ _ _ _ (by decide)]
    | none => rfl

/-! ## Request handling: claims -/

theorem fs_example_small (path c : List Nat) (h : fs_example path = some c) :
    c.length ≤ LONG_MAX := by
  unfold fs_example at h
  split at h
  · cases h
    decide
  · split at h
    · cases h
      decide
    · cases h

/-- C1. Dispatch policy of `handle_request` over a fixed file system: for every root
directory, every read that delivered something and every file system, with `p` the parsed
request path: if the file at `resolve(root, p)` can be opened, the bytes sent are the
response with status line `HTTP/1.1 200 OK` that carries this file; otherwise, if the file
at `resolve(root, "404.html")` can be opened, they are the response with status line
`HTTP/1.1 404 Not Found` that carries `404.html`; otherwise nothing is sent. -/
theorem handle_request_dispatch (fs : FS) (uninit : Nat → Nat) (now : Nat) (rcv : Recv)
    (config : Config) (hrecv : 0 < rcv.ret)
    (hfs : ∀ path c, fs path = some c → c.length ≤ LONG_MAX) :
    (∀ c, fs (resolve uninit config.root_dir (request_path rcv.data)) = some c →
      (handle_request fs uninit now rcv config).2.flatten
        = http_response (s2b "HTTP/1.1 200 OK") (current_date uninit now) c)
    ∧ (fs (resolve uninit config.root_dir (request_path rcv.data)) = none →
        ∀ c, fs (resolve uninit config.root_dir (lit "404.html")) = some c →
        (handle_request fs uninit now rcv config).2.flatten
          = http_response (s2b "HTTP/1.1 404 Not Found") (current_date uninit now) c)
    ∧ (fs (resolve uninit config.root_dir (request_path rcv.data)) = none →
        fs (resolve uninit config.root_dir (lit "404.html")) = none →
        (handle_request fs uninit now rcv config).2 = []) := by
  rw [handle_request_eq fs uninit now rcv config hrecv]
  refine ⟨?_, ?_, ?_⟩
  · intro c hc
    simp only [hc, List.flatten_cons]
    rw [fread_loop_flatten _ _ (by omega), format_header_eq_http_header _ _ _ (hfs _ _ hc)]
    rfl
  · intro hn c hc
    simp only [hn, hc, List.flatten_cons]
    rw [fread_loop_flatten _ _ (by omega), format_header_eq_http_header _ _ _ (hfs _ _ hc)]
    rfl
  · intro hn hn2
    simp only [hn, hn2]

/-- C1, on the example of the specification: `GET /missing.html` is answered with status
404 and the nine bytes of `404.html`. -/
theorem handle_request_dispatch_witness :
    (handle_request fs_example (fun _ => 65) 0 ⟨26, s2b "GET /missing.html HTTP/1.1"⟩
        config_no_root).2.flatten
      = s2b ("HTTP/1.1 404 Not Found\r\nContent-Type: text/html\r\n" ++
          "Date: Thu, 01 Jan 1970 00:00:00 GMT\r\nContent-Length: 9\r\n\r\nNot Found") :=
  ((handle_request_dispatch fs_example (fun _ => 65) 0
      ⟨26, s2b "GET /missing.html HTTP/1.1"⟩ config_no_root (by decide)
      fs_example_small).2.1 (by decide) (s2b "Not Found") (by decide)).trans (by decide)

/-- C10. Per-request failures never stop the server: whatever the file system, the
configuration and the result of the read, `handle_request` returns 1, the value that
lets the loop continue, so the step of `main` that handles a request leaves `g_run` as
it was; and when the read returns zero or less, nothing is sent on the connection. -/
theorem handle_request_never_stops (fs : FS) (uninit : Nat → Nat) (now : Nat) (rcv : Recv)
    (config : Config) :
    (handle_request fs uninit now rcv config).1 = 1
    ∧ (handle_request fs uninit now rcv config).1 ≠ 0
    ∧ (rcv.ret ≤ 0 → (handle_request fs uninit now rcv config).2 = [])
    ∧ (∀ (st : Server) (env : Env), st.pc = Pc.handle →
        (main_step config env st).g_run = st.g_run) := by
  have h1 : ∀ (fs : FS) (uninit : Nat → Nat) (now : Nat) (rcv : Recv),
      (handle_request fs uninit now rcv config).1 = 1 := by
    intro fs uninit now rcv
    unfold handle_request
    simp only []
    split
    · rfl
    · split
      · rfl
      · split <;> rfl
  refine ⟨h1 fs uninit now rcv, ?_, ?_, ?_⟩
  · rw [h1]
    decide
  · intro hle
    unfold handle_request
    simp only []
    rw [if_pos hle]
  · intro st env hpc
    unfold main_step
    rw [hpc]
    simp only []
    rw [h1, if_neg (by decide)]

/-! ## Response Writer: claims -/

/-- What `send_http_response` sends for arbitrary arguments: nothing when the file cannot
be opened; otherwise the formatted header, cut to the 511 bytes that fit the `header`
array, followed by the file in chunks of 1 to 4096 bytes. -/
theorem send_http_response_output (fs : FS) (uninit : Nat → Nat)
    (status_line filename date_str root_dir : List Nat) :
    (fs (resolve uninit root_dir filename) = none →
      send_http_response fs uninit status_line filename date_str root_dir = [])
    ∧ (∀ contents, fs (resolve uninit root_dir filename) = some contents →
        contents.length ≤ LONG_MAX →
        ∃ chunks,
          send_http_response fs uninit status_line filename date_str root_dir
            = (http_header (cstr status_line) (cstr date_str) contents.length).take 511
                :: chunks
          ∧ chunks.flatten = contents
          ∧ (∀ c ∈ chunks, 0 < c.length ∧ c.length ≤ BUFFER_SIZE)
          ∧ chunks.length = (contents.length + (BUFFER_SIZE - 1)) / BUFFER_SIZE
          ∧ ((http_header (cstr status_line) (cstr date_str) contents.length).length ≤ 511 →
              (send_http_response fs uninit status_line filename date_str root_dir).flatten
                = http_response (cstr status_line) (cstr date_str) contents)) := by
  rw [send_http_response_eq]
  constructor
  · intro hn
    simp only [hn]
  · intro contents hc hsz
    refine ⟨fread_loop (contents.length + 1) contents, ?_,
      fread_loop_flatten _ _ (by omega), fread_loop_chunks _ _,
      fread_loop_length _ _ (by omega), ?_⟩
    · simp only [hc]
      rw [format_header_eq_http_header _ _ _ hsz]
    · intro hfit
      simp only [hc, List.flatten_cons]
      rw [format_header_eq_http_header _ _ _ hsz, List.take_of_length_le hfit,
        fread_loop_flatten _ _ (by omega)]
      rfl

theorem http_header_fits (status_line date_str contents : List Nat)
    (hs : (cstr status_line).length ≤ 22) (hd : (cstr date_str).length ≤ 127)
    (hsz : contents.length ≤ LONG_MAX) :
    (http_header (cstr status_line) (cstr date_str) contents.length).length ≤ 511 := by
  rw [← format_header_eq_http_header _ _ _ hsz, format_header_length]
  have h1 := fmt_ld_ftell_end_length contents
  omega

/-- C3. Output of `send_http_response(status_line, filename, date_str, root_dir)` over a
fixed file system, for the arguments that `handle_request` passes (one of the two status
lines, a date string that fits `date_buffer[128]`): if the file at `resolve(root_dir,
filename)` cannot be opened, nothing is sent; otherwise the bytes sent are exactly
`status_line ++ "\r\n" ++ "Content-Type: text/html\r\n" ++ "Date: " ++ date_str ++
"\r\n" ++ "Content-Length: " ++ decimal(file size) ++ "\r\n\r\n"` followed by the bytes
of the file, sent in chunks of 1 to 4096 bytes, as few as the length of the file allows,
whose concatenation is the whole file content, for files of every length. -/
theorem send_http_response_exact (fs : FS) (uninit : Nat → Nat)
    (status_line filename date_str root_dir : List Nat)
    (hs : status_line = lit "HTTP/1.1 200 OK" ∨ status_line = lit "HTTP/1.1 404 Not Found")
    (hd : (cstr date_str).length ≤ 127)
    (hfs : ∀ path c, fs path = some c → c.length ≤ LONG_MAX) :
    (fs (resolve uninit root_dir filename) = none →
      send_http_response fs uninit status_line filename date_str root_dir = [])
    ∧ (∀ contents, fs (resolve uninit root_dir filename) = some contents →
        ∃ chunks,
          send_http_response fs uninit status_line filename date_str root_dir
            = (cstr status_line ++ s2b "\r\n" ++ s2b "Content-Type: text/html\r\n" ++
                s2b "Date: " ++ cstr date_str ++ s2b "\r\n" ++ s2b "Content-Length: " ++
                decimal contents.length ++ s2b "\r\n\r\n") :: chunks
          ∧ chunks.flatten = contents
          ∧ (∀ c ∈ chunks, 0 < c.length ∧ c.length ≤ BUFFER_SIZE)
          ∧ chunks.length = (contents.length + (BUFFER_SIZE - 1)) / BUFFER_SIZE
          ∧ (send_http_response fs uninit status_line filename date_str root_dir).flatten
              = cstr status_line ++ s2b "\r\n" ++ s2b "Content-Type: text/html\r\n" ++
                  s2b "Date: " ++ cstr date_str ++ s2b "\r\n" ++ s2b "Content-Length: " ++
                  decimal contents.length ++ s2b "\r\n\r\n" ++ contents) := by
  have hgen := send_http_response_output fs uninit status_line filename date_str root_dir
  have hs22 : (cstr status_line).length ≤ 22 := by
    rcases hs with hs | hs <;> rw [hs] <;> decide
  refine ⟨hgen.1, ?_⟩
  intro contents hc
  have hsz := hfs _ _ hc
  have hfit := http_header_fits status_line date_str contents hs22 hd hsz
  obtain ⟨chunks, h1, h2, h3, h4, h5⟩ := hgen.2 contents hc hsz
  refine ⟨chunks, ?_, h2, h3, h4, ?_⟩
  · rw [h1, List.take_of_length_le hfit]
    rfl
  · rw [h5 hfit]
    rfl

/-- C3, on the example of the specification: `index.html` is sent with its twelve bytes
after the complete header. -/
theorem send_http_response_exact_witness :
    (send_http_response fs_example (fun _ => 65) (lit "HTTP/1.1 200 OK") (lit "index.html")
        (lit "Thu, 01 Jan 1970 00:00:00 GMT") [0]).flatten
      = s2b ("HTTP/1.1 200 OK\r\nContent-Type: text/html\r\n" ++
          "Date: Thu, 01 Jan 1970 00:00:00 GMT\r\nContent-Length: 12\r\n\r\nHello World!") := by
  obtain ⟨_, _, _, _, _, h⟩ := (send_http_response_exact fs_example (fun _ => 65)
    (lit "HTTP/1.1 200 OK") (lit "index.html") (lit "Thu, 01 Jan 1970 00:00:00 GMT")
    [0] (Or.inl rfl) (by decide) fs_example_small).2 (s2b "Hello World!") (by decide)
  exact h.trans (by decide)

/-! ## Serving an existing file: claims -/

theorem cstr_append_of_ne_zero (a b : List Nat) (h : ∀ c ∈ a, c ≠ 0) :
    cstr (a ++ b) = a ++ cstr b := by
  unfold cstr
  rw [List.takeWhile_append_of_pos]
  intro c hc
  simpa using h c hc

theorem tokens_get_request (p tail : List Nat) (hp : ∀ c ∈ p, c ≠ 32) :
    (tokens is_space (s2b "GET /" ++ p ++ s2b " HTTP/1.1" ++ tail))[1]? = some (47 :: p) := by
  have e1 : s2b "GET /" = [71, 69, 84, 32, 47] := by decide
  have e2 : s2b " HTTP/1.1" = 32 :: s2b "HTTP/1.1" := by decide
  have hns : ∀ c ∈ p, (!is_space c) = true := by
    intro c hc
    have := hp c hc
    simp [is_space, this]
  have htw : List.takeWhile (fun c => !is_space c) (p ++ 32 :: (s2b "HTTP/1.1" ++ tail)) = p := by
    rw [List.takeWhile_append_of_pos hns]
    simp [List.takeWhile_cons, is_space]
  rw [e1, e2, tokens_unfold]
  have hd1 : List.dropWhile is_space
      ([71, 69, 84, 32, 47] ++ p ++ 32 :: s2b "HTTP/1.1" ++ tail)
      = [71, 69, 84, 32, 47] ++ p ++ 32 :: s2b "HTTP/1.1" ++ tail := by
    simp [List.dropWhile_cons, is_space]
  have hf1 : (first_token ([71, 69, 84, 32, 47] ++ p ++ 32 :: s2b "HTTP/1.1" ++ tail)).2
      = 47 :: (p ++ 32 :: (s2b "HTTP/1.1" ++ tail)) := by
    unfold first_token
    simp only [hd1]
    simp [List.dropWhile_cons, is_space]
  rw [hd1, if_neg (by simp), hf1, tokens_unfold]
  have hd2 : List.dropWhile is_space (47 :: (p ++ 32 :: (s2b "HTTP/1.1" ++ tail)))
      = 47 :: (p ++ 32 :: (s2b "HTTP/1.1" ++ tail)) := by
    simp [List.dropWhile_cons, is_space]
  have hf2 : (first_token (47 :: (p ++ 32 :: (s2b "HTTP/1.1" ++ tail)))).1 = 47 :: p := by
    unfold first_token
    simp only [hd2]
    rw [List.takeWhile_cons, htw]
    rfl
  rw [hd2, if_neg (by simp), hf2]
  simp

theorem request_path_get (p tail : List Nat) (hne : p ≠ [])
    (hp : ∀ c ∈ p, c ≠ 0 ∧ c ≠ 32)
    (hlen : (s2b "GET /" ++ p ++ s2b " HTTP/1.1" ++ tail).length ≤ BUFFER_SIZE - 1) :
    request_path (s2b "GET /" ++ p ++ s2b " HTTP/1.1" ++ tail) = p := by
  unfold request_path
  rw [cstr_normalize_path, path_token_spec, cstr_request_buffer, List.take_of_length_le hlen]
  have hnz : ∀ c ∈ s2b "GET /" ++ p ++ s2b " HTTP/1.1", c ≠ 0 := by
    intro c hc
    rcases List.mem_append.mp hc with h | h
    · rcases List.mem_append.mp h with h | h
      · exact s2b_ne_zero_of _ (by decide) c h
      · exact (hp c h).1
    · exact s2b_ne_zero_of _ (by decide) c h
  rw [cstr_append_of_ne_zero _ _ hnz, tokens_get_request p _ (fun c hc => (hp c hc).2)]
  unfold spec_normalize
  simp only []
  have h1 : 47 :: p ≠ s2b "/" := by
    intro hc
    have e : s2b "/" = [47] := by decide
    rw [e] at hc
    exact hne (List.cons.inj hc).2
  rw [if_neg h1]
  simp

set_option maxRecDepth 100000 in
/-- C2 (as stated, refuted). A file whose name contains a space, or whose joined path
is longer than 511 bytes, is present under the root, and the request `GET /p HTTP/1.1`
for it is answered with nothing at all (there is no `404.html`). -/
theorem get_existing_file_counterexample :
    fs_single (s2b "my file.html") (s2b "hi")
        (join_path (cstr config_no_root.root_dir) (s2b "my file.html")) = some (s2b "hi")
    ∧ (handle_request (fs_single (s2b "my file.html") (s2b "hi")) (fun _ => 0) 0
        ⟨26, s2b "GET /" ++ s2b "my file.html" ++ s2b " HTTP/1.1"⟩ config_no_root).2 = []
    ∧ fs_single (deep_path 60) (s2b "hi")
        (join_path (cstr config_no_root.root_dir) (deep_path 60)) = some (s2b "hi")
    ∧ (deep_path 60).length = 610
    ∧ (handle_request (fs_single (deep_path 60) (s2b "hi")) (fun _ => 0) 0
        ⟨624, s2b "GET /" ++ deep_path 60 ++ s2b " HTTP/1.1"⟩ config_no_root).2
        = [] := by
  refine ⟨by decide, by decide, by decide, by decide, by decide⟩

/-- C2 (amended). For every root directory and every file `F` present under that root at
a relative path `p` that is not empty, contains no space and no NUL byte and whose joined
path is at most 511 bytes long, a request of at most 4095 bytes that starts with
`GET /p HTTP/1.1` yields the response with status 200, a `Content-Length` header equal to
the exact byte size of `F` and a body identical to the contents of `F`. -/
theorem get_existing_file (fs : FS) (uninit : Nat → Nat) (now : Nat) (config : Config)
    (ret : Int) (p tail F : List Nat) (hret : 0 < ret) (hne : p ≠ [])
    (hp : ∀ c ∈ p, c ≠ 0 ∧ c ≠ 32)
    (hlen : (s2b "GET /" ++ p ++ s2b " HTTP/1.1" ++ tail).length ≤ BUFFER_SIZE - 1)
    (hJ : (join_path (cstr config.root_dir) p).length ≤ MAX_PATH_LEN - 1)
    (hF : fs (join_path (cstr config.root_dir) p) = some F)
    (hsz : F.length ≤ LONG_MAX) :
    (handle_request fs uninit now ⟨ret, s2b "GET /" ++ p ++ s2b " HTTP/1.1" ++ tail⟩
        config).2.flatten
      = s2b "HTTP/1.1 200 OK" ++ s2b "\r\n" ++ s2b "Content-Type: text/html\r\n" ++
          s2b "Date: " ++ current_date uninit now ++ s2b "\r\n" ++
          s2b "Content-Length: " ++ decimal F.length ++ s2b "\r\n\r\n" ++ F := by
  rw [handle_request_eq fs uninit now _ config hret]
  simp only []
  have hres : resolve uninit config.root_dir
      (request_path (s2b "GET /" ++ p ++ s2b " HTTP/1.1" ++ tail))
      = join_path (cstr config.root_dir) p := by
    rw [request_path_get p tail hne hp hlen, resolve_eq,
      cstr_of_ne_zero p (fun c hc => (hp c hc).1), List.take_of_length_le hJ]
  rw [hres, hF]
  simp only [List.flatten_cons]
  rw [fread_loop_flatten _ _ (by omega), format_header_eq_http_header _ _ _ hsz]
  rfl

/-- C2 (amended), on the example of the specification with the root directory
`/srv/www`: `GET /index.html HTTP/1.1` is answered with the twelve bytes of the file. -/
theorem get_existing_file_witness :
    (handle_request (fs_single (s2b "/srv/www/index.html") (s2b "Hello World!"))
        (fun _ => 65) 0
        ⟨37, s2b "GET /" ++ s2b "index.html" ++ s2b " HTTP/1.1" ++ s2b "\r\nHost: x\r\n\r\n"⟩
        { config_no_root with root_dir := lit "/srv/www" }).2.flatten
      = s2b "HTTP/1.1 200 OK" ++ s2b "\r\n" ++ s2b "Content-Type: text/html\r\n" ++
          s2b "Date: " ++ current_date (fun _ => 65) 0 ++ s2b "\r\n" ++
          s2b "Content-Length: " ++ decimal 12 ++ s2b "\r\n\r\n" ++ s2b "Hello World!" :=
  get_existing_file (fs_single (s2b "/srv/www/index.html") (s2b "Hello World!"))
    (fun _ => 65) 0 { config_no_root with root_dir := lit "/srv/www" } 37
    (s2b "index.html") (s2b "\r\nHost: x\r\n\r\n") (s2b "Hello World!")
    (by decide) (by decide) (by decide) (by decide) (by decide) (by decide) (by decide)

/-! ## Date: lemmas -/

theorem wday_abbrev_spec (w : Nat) :
    (wday_abbrev w).length ≤ 3 ∧ ∀ c ∈ wday_abbrev w, c ≠ 0 := by
  by_cases hw : w < 7
  · interval_cases w <;> exact ⟨by decide, s2b_ne_zero_of _ (by decide)⟩
  · have e : wday_abbrev w = s2b "?" := by
      unfold wday_abbrev
      rw [List.getD_eq_default _ _ (by simpa using hw)]
    rw [e]
    exact ⟨by decide, s2b_ne_zero_of _ (by decide)⟩

theorem mon_abbrev_spec (m : Nat) :
    (mon_abbrev m).length ≤ 3 ∧ ∀ c ∈ mon_abbrev m, c ≠ 0 := by
  by_cases hm : m < 12
  · interval_cases m <;> exact ⟨by decide, s2b_ne_zero_of _ (by decide)⟩
  · have e : mon_abbrev m = s2b "?" := by
      unfold mon_abbrev
      rw [List.getD_eq_default _ _ (by simpa using hm)]
    rw [e]
    exact ⟨by decide, s2b_ne_zero_of _ (by decide)⟩

theorem two_digits_ne_zero (n : Nat) : ∀ c ∈ two_digits n, c ≠ 0 := by
  intro c hc
  simp [two_digits] at hc
  omega

theorem append_ne_zero (a b : List Nat) (ha : ∀ c ∈ a, c ≠ 0) (hb : ∀ c ∈ b, c ≠ 0) :
    ∀ c ∈ a ++ b, c ≠ 0 := by
  intro c hc
  rcases List.mem_append.mp hc with h | h
  · exact ha c h
  · exact hb c h

theorem format_http_date_ne_zero (t : Tm) : ∀ c ∈ format_http_date t, c ≠ 0 := by
  unfold format_http_date
  repeat apply append_ne_zero
  · exact (wday_abbrev_spec _).2
  · exact s2b_ne_zero_of _ (by decide)
  · exact two_digits_ne_zero _
  · exact s2b_ne_zero_of _ (by decide)
  · exact (mon_abbrev_spec _).2
  · exact s2b_ne_zero_of _ (by decide)
  · exact decimalAux_ne_zero _ _
  · exact s2b_ne_zero_of _ (by decide)
  · exact two_digits_ne_zero _
  · exact s2b_ne_zero_of _ (by decide)
  · exact two_digits_ne_zero _
  · exact s2b_ne_zero_of _ (by decide)
  · exact two_digits_ne_zero _
  · exact s2b_ne_zero_of _ (by decide)

theorem gmtime_year_bound (now : Nat) (h : now ≤ TIME_Y9999) :
    (gmtime now).tm_year + 1900 < 10 ^ 5 := by
  have hT : TIME_Y9999 = 253402300799 := rfl
  unfold gmtime
  simp only []
  split_ifs <;> omega

theorem format_http_date_length (now : Nat) (h : now ≤ TIME_Y9999) :
    (format_http_date (gmtime now)).length ≤ 30 := by
  have hy := decimalAux_length ((gmtime now).tm_year + 1900 + 1) _ 5 (by decide)
    (gmtime_year_bound now h)
  have hw := (wday_abbrev_spec (gmtime now).tm_wday).1
  have hm := (mon_abbrev_spec (gmtime now).tm_mon).1
  have e1 : (s2b ", ").length = 2 := rfl
  have e2 : (s2b " ").length = 1 := rfl
  have e3 : (s2b ":").length = 1 := rfl
  have e4 : (s2b " GMT").length = 4 := rfl
  unfold format_http_date decimal
  simp only [List.length_append, e1, e2, e3, e4, two_digits, List.length_cons,
    List.length_nil]
  omega

/-- Before the year 10000 the date fits `date_buffer`, so the date string passed on does
not depend on what the array held before. -/
theorem current_date_eq (uninit : Nat → Nat) (now : Nat) (h : now ≤ TIME_Y9999) :
    current_date uninit now = format_http_date (gmtime now) := by
  have hl := format_http_date_length now h
  unfold current_date get_gmt_date strftime
  simp only []
  rw [if_pos (by omega), List.append_assoc, List.singleton_append,
    cstr_append_nul _ _ (format_http_date_ne_zero _)]

/-! ## Repeated requests: claims -/

theorem format_header_cstr_date (status_line date_str : List Nat) (file_size : Int) :
    format_header status_line (cstr date_str) file_size
      = format_header status_line date_str file_size := by
  unfold format_header
  rw [cstr_idem]

theorem handle_request_eq_on_date (fs : FS) (uninit : Nat → Nat) (now : Nat) (rcv : Recv)
    (config : Config) :
    handle_request fs uninit now rcv config
      = dispatch_on_date fs config rcv (current_date uninit now) := by
  unfold dispatch_on_date
  by_cases h : rcv.ret ≤ 0
  · rw [if_pos h]
    unfold handle_request
    simp only []
    rw [if_pos h]
  · rw [if_neg h, handle_request_eq fs uninit now rcv config (by omega), resolve_eq,
      resolve_eq]
    have e1 : cstr (request_path rcv.data) = request_path rcv.data := by
      unfold request_path
      rw [cstr_idem]
    have e2 : cstr (lit "404.html") = s2b "404.html" := by decide
    rw [e1, e2]
    unfold current_date
    simp only [format_header_cstr_date]
    cases fs ((join_path (cstr config.root_dir) (request_path rcv.data)).take
        (MAX_PATH_LEN - 1)) with
    | some c => rfl
    | none =>
      simp only []
      cases fs ((join_path (cstr config.root_dir) (s2b "404.html")).take
          (MAX_PATH_LEN - 1)) with
      | some c => rfl
      | none => rfl

/-- C7 (as stated, refuted). The same request against the same file system, handled at
two different seconds, is answered with different bytes: the `Date` header differs. -/
theorem repeated_request_counterexample :
    (handle_request fs_example (fun _ => 0) 0 ⟨14, s2b "GET / HTTP/1.1"⟩
        config_no_root).2.flatten
      ≠ (handle_request fs_example (fun _ => 0) 1 ⟨14, s2b "GET / HTTP/1.1"⟩
        config_no_root).2.flatten
    ∧ (handle_request fs_example (fun _ => 0) 0 ⟨14, s2b "GET / HTTP/1.1"⟩
        config_no_root).2.flatten
      = s2b ("HTTP/1.1 200 OK\r\nContent-Type: text/html\r\n" ++
          "Date: Thu, 01 Jan 1970 00:00:00 GMT\r\nContent-Length: 12\r\n\r\nHello World!")
    ∧ (handle_request fs_example (fun _ => 0) 1 ⟨14, s2b "GET / HTTP/1.1"⟩
        config_no_root).2.flatten
      = s2b ("HTTP/1.1 200 OK\r\nContent-Type: text/html\r\n" ++
          "Date: Thu, 01 Jan 1970 00:00:01 GMT\r\nContent-Length: 12\r\n\r\nHello World!") := by
  refine ⟨by decide, by decide, by decide⟩

/-- C7 (amended). Determinism of responses up to the date: for every configuration,
file system and request, the runs of `handle_request` on that request against the
unchanged file system either all send nothing, or all send the same bytes before and
after the value of the `Date` header; two runs send identical buffers whenever their
date strings agree, which is the case for two runs within the same second (before the
year 10000). -/
theorem repeated_request_differs_in_date_only (fs : FS) (rcv : Recv) (config : Config) :
    (∃ pre post : List Nat,
      (∀ uninit now, (handle_request fs uninit now rcv config).2 = [])
      ∨ (∀ uninit now, (handle_request fs uninit now rcv config).2.flatten
          = pre ++ current_date uninit now ++ post))
    ∧ (∀ uninit₁ uninit₂ now₁ now₂,
        current_date uninit₁ now₁ = current_date uninit₂ now₂ →
        handle_request fs uninit₁ now₁ rcv config
          = handle_request fs uninit₂ now₂ rcv config)
    ∧ (∀ uninit₁ uninit₂ now, now ≤ TIME_Y9999 →
        handle_request fs uninit₁ now rcv config
          = handle_request fs uninit₂ now rcv config) := by
  refine ⟨?_, ?_, ?_⟩
  · by_cases h : rcv.ret ≤ 0
    · refine ⟨[], [], Or.inl ?_⟩
      intro uninit now
      rw [handle_request_eq_on_date]
      unfold dispatch_on_date
      rw [if_pos h]
    · cases h1 : fs ((join_path (cstr config.root_dir) (request_path rcv.data)).take
          (MAX_PATH_LEN - 1)) with
      | some c =>
        refine ⟨cstr (lit "HTTP/1.1 200 OK") ++ s2b "\r\n" ++
          s2b "Content-Type: text/html\r\n" ++ s2b "Date: ",
          s2b "\r\n" ++ s2b "Content-Length: " ++ fmt_ld (ftell_end c) ++ s2b "\r\n" ++
            s2b "\r\n" ++ c, Or.inr ?_⟩
        intro uninit now
        rw [handle_request_eq_on_date]
        unfold dispatch_on_date
        rw [if_neg h, h1]
        simp only [List.flatten_cons]
        rw [fread_loop_flatten _ _ (by omega)]
        unfold format_header current_date
        rw [cstr_idem]
        simp only [List.append_assoc]
      | none =>
        cases h2 : fs ((join_path (cstr config.root_dir) (s2b "404.html")).take
            (MAX_PATH_LEN - 1)) with
        | some c =>
          refine ⟨cstr (lit "HTTP/1.1 404 Not Found") ++ s2b "\r\n" ++
            s2b "Content-Type: text/html\r\n" ++ s2b "Date: ",
            s2b "\r\n" ++ s2b "Content-Length: " ++ fmt_ld (ftell_end c) ++ s2b "\r\n" ++
              s2b "\r\n" ++ c, Or.inr ?_⟩
          intro uninit now
          rw [handle_request_eq_on_date]
          unfold dispatch_on_date
          rw [if_neg h, h1]
          simp only [h2, List.flatten_cons]
          rw [fread_loop_flatten _ _ (by omega)]
          unfold format_header current_date
          rw [cstr_idem]
          simp only [List.append_assoc]
        | none =>
          refine ⟨[], [], Or.inl ?_⟩
          intro uninit now
          rw [handle_request_eq_on_date]
          unfold dispatch_on_date
          rw [if_neg h, h1]
          simp only [h2]
  · intro u1 u2 n1 n2 hd
    rw [handle_request_eq_on_date, handle_request_eq_on_date, hd]
  · intro u1 u2 now hnow
    rw [handle_request_eq_on_date, handle_request_eq_on_date, current_date_eq u1 now hnow,
      current_date_eq u2 now hnow]

/-- C7 (amended), at a concrete input: the example request handled twice in the second
1 000 000 000, with different garbage in the local arrays, gives the same buffers. -/
theorem repeated_request_differs_in_date_only_witness :
    handle_request fs_example (fun _ => 65) 1000000000 ⟨14, s2b "GET / HTTP/1.1"⟩
        config_no_root
      = handle_request fs_example (fun i => i) 1000000000 ⟨14, s2b "GET / HTTP/1.1"⟩
        config_no_root :=
  (repeated_request_differs_in_date_only fs_example ⟨14, s2b "GET / HTTP/1.1"⟩
    config_no_root).2.2 (fun _ => 65) (fun i => i) 1000000000 (by decide)

/-! ## Shutdown: claims -/

theorem handle_request_fst (fs : FS) (uninit : Nat → Nat) (now : Nat) (rcv : Recv)
    (config : Config) : (handle_request fs uninit now rcv config).1 = 1 := by
  rw [handle_request_eq_on_date]
  unfold dispatch_on_date
  split
  · rfl
  · split
    · rfl
    · split <;> rfl

theorem main_step_g_run (config : Config) (env : Env) (st : Server) :
    (main_step config env st).g_run = st.g_run ∧ (main_step config env st).called = st.called
      ∧ (main_step config env st).status = st.status
        ∨ (st.pc = Pc.cleanup ∧ (main_step config env st).g_run = st.g_run
            ∧ (main_step config env st).called = st.called
            ∧ (main_step config env st).status = Status.returned 0) := by
  unfold main_step
  cases hpc : st.pc with
  | loop_test => left; simp only []; split <;> exact ⟨rfl, rfl, rfl⟩
  | select =>
    left
    simp only []
    split
    · split <;> exact ⟨rfl, rfl, rfl⟩
    · split <;> exact ⟨rfl, rfl, rfl⟩
  | accept =>
    left
    simp only []
    split
    · split <;> exact ⟨rfl, rfl, rfl⟩
    · exact ⟨rfl, rfl, rfl⟩
  | handle =>
    left
    simp only []
    rw [handle_request_fst, if_neg (by decide)]
    refine ⟨?_, ?_, ?_⟩ <;> first | rfl | trivial
  | cleanup => right; exact ⟨rfl, rfl, rfl, rfl⟩

theorem signal_handler_flags (sig : Int) (st : Server) :
    ((signal_handler sig st).g_run = st.g_run ∧ (signal_handler sig st).called = st.called)
      ∨ (st.called = 0 ∧ (signal_handler sig st).g_run = 0
          ∧ (signal_handler sig st).called = 1) := by
  unfold signal_handler
  split
  · split
    · left; exact ⟨rfl, rfl⟩
    · rename_i hc
      right
      exact ⟨not_not.mp hc, rfl, rfl⟩
  · left; exact ⟨rfl, rfl⟩

theorem next_flags (config : Config) (st : Server) (ev : Event) :
    ((Server.next config st ev).g_run = st.g_run
        ∧ (Server.next config st ev).called = st.called)
      ∨ (st.called = 0 ∧ (Server.next config st ev).g_run = 0
          ∧ (Server.next config st ev).called = 1) := by
  unfold Server.next
  cases st.status with
  | running =>
    cases ev with
    | signal sig => exact signal_handler_flags sig st
    | step env =>
      simp only []
      rcases main_step_g_run config env st with ⟨h1, h2, _⟩ | ⟨_, h1, h2, _⟩
      · exact Or.inl ⟨h1, h2⟩
      · exact Or.inl ⟨h1, h2⟩
  | forced_exit c => exact Or.inl ⟨rfl, rfl⟩
  | returned c => exact Or.inl ⟨rfl, rfl⟩

theorem run_cons (config : Config) (st : Server) (ev : Event) (evs : List Event) :
    Server.run config st (ev :: evs) = Server.run config (Server.next config st ev) evs :=
  rfl

theorem run_flag_invariant (config : Config) (evs : List Event) (st : Server)
    (h : (st.g_run = 1 ∧ st.called = 0) ∨ (st.g_run = 0 ∧ st.called = 1)) :
    ((Server.run config st evs).g_run = 1 ∧ (Server.run config st evs).called = 0)
      ∨ ((Server.run config st evs).g_run = 0 ∧ (Server.run config st evs).called = 1) := by
  induction evs generalizing st with
  | nil => exact h
  | cons ev evs ih =>
    rw [run_cons]
    apply ih
    rcases next_flags config st ev with ⟨h1, h2⟩ | ⟨_, h1, h2⟩
    · rw [h1, h2]
      exact h
    · exact Or.inr ⟨h1, h2⟩

theorem run_flag_stays_cleared (config : Config) (evs : List Event) (st : Server)
    (h : st.g_run = 0) : (Server.run config st evs).g_run = 0 := by
  induction evs generalizing st with
  | nil => exact h
  | cons ev evs ih =>
    rw [run_cons]
    apply ih
    rcases next_flags config st ev with ⟨h1, _⟩ | ⟨_, h1, _⟩
    · rw [h1]
      exact h
    · exact h1

theorem next_after_cleared (config : Config) (st : Server) (ev : Event)
    (hg : st.g_run = 0) (hpc : st.pc = Pc.loop_test ∨ st.pc = Pc.cleanup) :
    (Server.next config st ev).g_run = 0
      ∧ ((Server.next config st ev).pc = Pc.loop_test
          ∨ (Server.next config st ev).pc = Pc.cleanup)
      ∧ (Server.next config st ev).accepts = st.accepts
      ∧ (Server.next config st ev).sent = st.sent := by
  unfold Server.next
  cases st.status with
  | running =>
    cases ev with
    | signal sig =>
      simp only []
      unfold signal_handler
      split
      · split
        · exact ⟨hg, hpc, rfl, rfl⟩
        · exact ⟨rfl, hpc, rfl, rfl⟩
      · exact ⟨hg, hpc, rfl, rfl⟩
    | step env =>
      simp only []
      unfold main_step
      rcases hpc with hpc | hpc
      · rw [hpc]
        simp only []
        rw [if_neg (by rw [hg]; decide)]
        exact ⟨hg, Or.inr rfl, rfl, rfl⟩
      · rw [hpc]
        exact ⟨hg, Or.inr rfl, rfl, rfl⟩
  | forced_exit c => exact ⟨hg, hpc, rfl, rfl⟩
  | returned c => exact ⟨hg, hpc, rfl, rfl⟩

theorem run_after_cleared (config : Config) (evs : List Event) (st : Server)
    (hg : st.g_run = 0) (hpc : st.pc = Pc.loop_test ∨ st.pc = Pc.cleanup) :
    (Server.run config st evs).accepts = st.accepts
      ∧ (Server.run config st evs).sent = st.sent := by
  induction evs generalizing st with
  | nil => exact ⟨rfl, rfl⟩
  | cons ev evs ih =>
    rw [run_cons]
    obtain ⟨h1, h2, h3, h4⟩ := next_after_cleared config st ev hg hpc
    obtain ⟨h5, h6⟩ := ih (Server.next config st ev) h1 h2
    exact ⟨h5.trans h3, h6.trans h4⟩

theorem next_without_termination (config : Config) (st : Server) (ev : Event)
    (hev : ev.is_termination = false)
    (h : st.g_run = 1 ∧ st.called = 0 ∧ ∀ c, st.status ≠ Status.forced_exit c) :
    (Server.next config st ev).g_run = 1 ∧ (Server.next config st ev).called = 0
      ∧ ∀ c, (Server.next config st ev).status ≠ Status.forced_exit c := by
  unfold Server.next
  cases hs : st.status with
  | running =>
    cases ev with
    | signal sig =>
      have hn : ¬ (sig = SIGINT ∨ sig = SIGTERM) := by
        simpa [Event.is_termination] using hev
      simp only []
      unfold signal_handler
      rw [if_neg hn]
      exact h
    | step env =>
      simp only []
      rcases main_step_g_run config env st with ⟨h1, h2, h3⟩ | ⟨_, h1, h2, h3⟩
      · rw [h1, h2, h3]
        exact h
      · rw [h1, h2, h3]
        exact ⟨h.1, h.2.1, fun c hc => by cases hc⟩
  | forced_exit c => exact h
  | returned c => exact h

theorem run_without_termination (config : Config) (evs : List Event) (st : Server)
    (hev : ∀ ev ∈ evs, ev.is_termination = false)
    (h : st.g_run = 1 ∧ st.called = 0 ∧ ∀ c, st.status ≠ Status.forced_exit c) :
    (Server.run config st evs).g_run = 1 ∧ (Server.run config st evs).called = 0
      ∧ ∀ c, (Server.run config st evs).status ≠ Status.forced_exit c := by
  induction evs generalizing st with
  | nil => exact h
  | cons ev evs ih =>
    rw [run_cons]
    exact ih _ (fun e he => hev e (List.mem_cons_of_mem _ he))
      (next_without_termination config st ev (hev ev (List.mem_cons_self _ _)) h)

/-- C8. Shutdown state machine over `(g_run, called)`, starting from `(1, 0)`: after every
sequence of signals and steps of the main thread the state is `(1, 0)` or `(0, 1)`, and
it is `(1, 0)`, with no forced exit, as long as no termination signal (`SIGINT` or
`SIGTERM`) was delivered; a termination signal delivered while `called = 0`, the first
one, clears `g_run` and sets `called` without ending the process; a termination signal delivered while
`called = 1` ends the process at once with `_exit(0)`; any other signal changes nothing;
once `g_run` is cleared it stays cleared; and from a loop test reached with `g_run`
cleared no `accept` is made and nothing is sent any more, the next two steps of the
main thread leaving the loop and returning 0 from `main`. -/
theorem shutdown_state_machine (config : Config) :
    (∀ evs : List Event,
      ((Server.run config Server.init evs).g_run = 1
          ∧ (Server.run config Server.init evs).called = 0)
        ∨ ((Server.run config Server.init evs).g_run = 0
          ∧ (Server.run config Server.init evs).called = 1))
    ∧ (∀ evs : List Event, (∀ ev ∈ evs, ev.is_termination = false) →
        (Server.run config Server.init evs).g_run = 1
          ∧ (Server.run config Server.init evs).called = 0
          ∧ ∀ c, (Server.run config Server.init evs).status ≠ Status.forced_exit c)
    ∧ (∀ (st : Server) (sig : Int), st.status = Status.running → st.called = 0 →
        sig = SIGINT ∨ sig = SIGTERM →
        Server.next config st (Event.signal sig) = { st with called := 1, g_run := 0 })
    ∧ (∀ (st : Server) (sig : Int), st.status = Status.running → st.called = 1 →
        sig = SIGINT ∨ sig = SIGTERM →
        Server.next config st (Event.signal sig)
          = { st with status := Status.forced_exit 0 })
    ∧ (∀ (st : Server) (sig : Int), sig ≠ SIGINT → sig ≠ SIGTERM →
        Server.next config st (Event.signal sig) = st)
    ∧ (∀ (st : Server) (evs : List Event), st.g_run = 0 →
        (Server.run config st evs).g_run = 0)
    ∧ (∀ (st : Server) (evs : List Event), st.g_run = 0 → st.pc = Pc.loop_test →
        (Server.run config st evs).accepts = st.accepts
          ∧ (Server.run config st evs).sent = st.sent)
    ∧ (∀ (st : Server) (env₁ env₂ : Env), st.status = Status.running → st.g_run = 0 →
        st.pc = Pc.loop_test →
        Server.run config st [Event.step env₁, Event.step env₂]
          = { st with pc := Pc.cleanup, status := Status.returned 0 }) := by
  refine ⟨?_, ?_, ?_, ?_, ?_, ?_, ?_, ?_⟩
  · intro evs
    exact run_flag_invariant config evs Server.init (Or.inl ⟨rfl, rfl⟩)
  · intro evs hev
    exact run_without_termination config evs Server.init hev
      ⟨rfl, rfl, fun c hc => by cases hc⟩
  · intro st sig hs hc hsig
    have hn : Server.next config st (Event.signal sig) = signal_handler sig st := by
      unfold Server.next
      rw [hs]
    rw [hn]
    unfold signal_handler
    rw [if_pos hsig, if_neg (by rw [hc]; decide)]
  · intro st sig hs hc hsig
    have hn : Server.next config st (Event.signal sig) = signal_handler sig st := by
      unfold Server.next
      rw [hs]
    rw [hn]
    unfold signal_handler
    rw [if_pos hsig, if_pos (by rw [hc]; decide)]
  · intro st sig h1 h2
    unfold Server.next
    cases st.status with
    | running =>
      simp only []
      unfold signal_handler
      rw [if_neg (by
        intro hc
        rcases hc with hc | hc
        · exact h1 hc
        · exact h2 hc)]
    | forced_exit c => rfl
    | returned c => rfl
  · intro st evs hg
    exact run_flag_stays_cleared config evs st hg
  · intro st evs hg hpc
    exact run_after_cleared config evs st hg (Or.inl hpc)
  · intro st e1 e2 hs hg hpc
    simp only [Server.run, List.foldl, Server.next, hs, main_step, hpc, hg]
    simp

/-- C8, on a concrete run: `SIGINT` and then `SIGTERM`, delivered before the main thread
moves, end the process with `_exit(0)`. -/
theorem shutdown_state_machine_witness :
    Server.next config_no_root (Server.next config_no_root Server.init (Event.signal SIGINT))
        (Event.signal SIGTERM)
      = { Server.next config_no_root Server.init (Event.signal SIGINT) with
          status := Status.forced_exit 0 } :=
  (shutdown_state_machine config_no_root).2.2.2.1
    (Server.next config_no_root Server.init (Event.signal SIGINT)) SIGTERM
    (by decide) (by decide) (Or.inr rfl)

/-! ## Configuration: claims -/

theorem atoi_digits_decimalAux (fuel n acc : Nat) (rest : List Nat) (h : n < 10 ^ fuel) :
    atoi_digits (decimalAux fuel n ++ rest) acc
      = atoi_digits rest (acc * 10 ^ (decimalAux fuel n).length + n) := by
  induction fuel generalizing n acc rest with
  | zero =>
    have h0 : n = 0 := by simpa using h
    subst h0
    simp [decimalAux]
  | succ f ih =>
    unfold decimalAux
    by_cases h10 : n < 10
    · rw [if_pos h10]
      have hd : isdigit (48 + n) = true := by
        simp [isdigit]
        omega
      simp only [List.singleton_append, atoi_digits, hd, if_true, List.length_singleton,
        pow_one]
      congr 1
      omega
    · rw [if_neg h10, List.append_assoc]
      have hdiv : n / 10 < 10 ^ f := by
        rw [Nat.div_lt_iff_lt_mul (by decide)]
        rw [pow_succ] at h
        exact h
      rw [ih (n / 10) acc _ hdiv]
      have hd : isdigit (48 + n % 10) = true := by
        simp [isdigit]
        omega
      simp only [List.singleton_append, atoi_digits, hd, if_true, List.length_append,
        List.length_singleton]
      congr 1
      rw [pow_succ]
      have := Nat.div_add_mod n 10
      have e : (acc * 10 ^ (decimalAux f (n / 10)).length + n / 10) * 10
          = acc * (10 ^ (decimalAux f (n / 10)).length * 10) + n / 10 * 10 := by ring
      rw [e]
      omega

theorem atoi_digits_decimal (n : Nat) : atoi_digits (decimal n) 0 = n := by
  have h : n < 10 ^ (n + 1) := by
    have h1 : n < 10 ^ n := Nat.lt_pow_self (by decide) n
    have h2 : 10 ^ n ≤ 10 ^ (n + 1) := Nat.pow_le_pow_right (by decide) (by omega)
    omega
  have := atoi_digits_decimalAux (n + 1) n 0 [] h
  simpa [decimal, atoi_digits] using this

theorem decimalAux_head (fuel n : Nat) :
    ∃ d tl, decimalAux (fuel + 1) n = d :: tl ∧ 48 ≤ d ∧ d ≤ 57 := by
  induction fuel generalizing n with
  | zero =>
    unfold decimalAux
    by_cases h : n < 10
    · exact ⟨48 + n, [], by rw [if_pos h], by omega, by omega⟩
    · exact ⟨48 + n % 10, [], by rw [if_neg h]; rfl, by omega, by omega⟩
  | succ f ih =>
    unfold decimalAux
    by_cases h : n < 10
    · exact ⟨48 + n, [], by rw [if_pos h], by omega, by omega⟩
    · obtain ⟨d, tl, e, h1, h2⟩ := ih (n / 10)
      exact ⟨d, tl ++ [48 + n % 10], by rw [if_neg h, e]; rfl, h1, h2⟩

theorem atoi_decimal (s : List Nat) (n : Nat) (hs : cstr s = decimal n)
    (hn : (n : Int) ≤ INT_MAX) : atoi s = some (n : Int) := by
  obtain ⟨d, tl, e, h1, h2⟩ := decimalAux_head n n
  have hv := atoi_digits_decimal n
  unfold atoi
  rw [hs]
  unfold decimal at hv ⊢
  rw [e] at hv ⊢
  have hsp : isspace d = false := by
    simp [isspace]
    omega
  have hdw : List.dropWhile isspace (d :: tl) = d :: tl := by
    simp [List.dropWhile_cons, hsp]
  simp only [hdw, List.head?_cons, Option.some.injEq]
  have n45 : d ≠ 45 := by omega
  have n43 : d ≠ 43 := by omega
  simp only [n45, n43, or_self, if_false, hv]
  have hmin : INT_MIN ≤ (n : Int) := by
    have : INT_MIN = -2147483648 := by decide
    omega
  simp [hmin, hn]

/-- C9 (as stated, refuted). With `--port 12abc` the argument is not a positive integer,
yet `load_config` does not end with a failure: it configures port 12.  With
`--port 70000` the configured port is 70000 but the port put in the bound address is
4464. -/
theorem port_override_counterexample :
    ¬ (∀ c ∈ s2b "12abc", isdigit c = true)
    ∧ load_config id config_no_root [lit "showdocs", lit "--port", lit "12abc"]
        = LoadResult.loaded { config_no_root with port := 12 }
    ∧ load_config id config_no_root [lit "showdocs", lit "--port", lit "70000"]
        = LoadResult.loaded { config_no_root with port := 70000 }
    ∧ bound_port { config_no_root with port := 70000 } = 4464 := by
  refine ⟨by decide, ?_, ?_, by decide⟩
  · have h : atoi (lit "12abc") = some 12 := by decide
    simp [load_config, config_no_root, streq, h]
    decide
  · have h : atoi (lit "70000") = some 70000 := by decide
    simp [load_config, config_no_root, streq, h]
    decide

theorem load_config_port (file : Config → Config) (config : Config) (prog s : List Nat)
    (v : Int) (hv : atoi s = some v) :
    load_config file config [prog, lit "--port", s]
      = if v ≤ 0 then LoadResult.exited EXIT_FAILURE
        else LoadResult.loaded { file config with port := v } := by
  have h1 : streq (lit "--port") (lit "--version") = false := by decide
  have h2 : streq (lit "--port") (lit "-v") = false := by decide
  have h3 : streq (lit "--port") (lit "--port") = true := by decide
  unfold load_config
  simp only [List.length_cons, List.length_nil, List.getD_cons_succ, List.getD_cons_zero,
    h1, h2, h3, hv]
  simp

/-- C9 (amended). Port override in `load_config`: for every effect of the configuration
file and every argument string `s` whose `atoi` value `v` is defined (leading white space
skipped, optional sign, longest run of decimal digits, the rest ignored; `v` in the range
of `int`), invoking with the arguments `--port s` results in the configured port being
`v` when `v > 0`, whatever the configuration file says, and in termination with the
failure exit code when `v <= 0`.  In particular, when `s` is the decimal representation
of a positive integer `n <= INT_MAX` the configured port is `n`, and the port of the
bound address is `n` when moreover `n <= 65535`; and `--port abc`, `--port 0` and
`--port -5` end with the failure exit code. -/
theorem port_override (file : Config → Config) (config : Config) (prog s : List Nat) :
    (∀ v : Int, atoi s = some v → 0 < v →
      load_config file config [prog, lit "--port", s]
        = LoadResult.loaded { file config with port := v })
    ∧ (∀ v : Int, atoi s = some v → v ≤ 0 →
      load_config file config [prog, lit "--port", s] = LoadResult.exited EXIT_FAILURE)
    ∧ (∀ n : Nat, 0 < n → (n : Int) ≤ INT_MAX → cstr s = decimal n →
      load_config file config [prog, lit "--port", s]
          = LoadResult.loaded { file config with port := (n : Int) }
        ∧ (n ≤ 65535 → bound_port { file config with port := (n : Int) } = (n : Int)))
    ∧ load_config file config [prog, lit "--port", lit "abc"]
        = LoadResult.exited EXIT_FAILURE
    ∧ load_config file config [prog, lit "--port", lit "0"]
        = LoadResult.exited EXIT_FAILURE
    ∧ load_config file config [prog, lit "--port", lit "-5"]
        = LoadResult.exited EXIT_FAILURE := by
  refine ⟨?_, ?_, ?_, ?_, ?_, ?_⟩
  · intro v hv hpos
    rw [load_config_port file config prog s v hv, if_neg (by omega)]
  · intro v hv hle
    rw [load_config_port file config prog s v hv, if_pos hle]
  · intro n hpos hmax hs
    constructor
    · rw [load_config_port file config prog s n (atoi_decimal s n hs hmax), if_neg (by omega)]
    · intro h16
      unfold bound_port
      simp only []
      omega
  · rw [load_config_port file config prog _ 0 (by decide), if_pos (by decide)]
  · rw [load_config_port file config prog _ 0 (by decide), if_pos (by decide)]
  · rw [load_config_port file config prog _ (-5) (by decide), if_pos (by decide)]

/-- C9 (amended), on the example of the specification: with port 8080 in the
configuration file, `--port 9090` configures port 9090. -/
theorem port_override_witness :
    load_config (fun c => { c with port := 8080 }) config_no_root
        [lit "showdocs", lit "--port", lit "9090"]
      = LoadResult.loaded { config_no_root with port := 9090 } :=
  ((port_override (fun c => { c with port := 8080 }) config_no_root (lit "showdocs")
    (lit "9090")).2.2.1 9090 (by decide) (by decide) (by decide)).1

/-! ## Configuration file name: lemmas -/

theorem dropWhile_head_false (p : Nat → Bool) (l : List Nat) (x : Nat) (r : List Nat)
    (h : l.dropWhile p = x :: r) : p x = false := by
  induction l with
  | nil => simp at h
  | cons a t ih =>
    by_cases ha : p a = true
    · rw [List.dropWhile_cons, if_pos ha] at h
      exact ih h
    · rw [List.dropWhile_cons, if_neg ha] at h
      have e : a = x := (List.cons.inj h).1
      rw [← e]
      simpa using ha

/-- The text after the last occurrence of `c` determines a decomposition of the text. -/
theorem last_occurrence_split (t : List Nat) (c : Nat)
    (h : (t.reverse.takeWhile (fun x => x != c)).length < t.length) :
    ∃ P, t = P ++ c :: (t.reverse.takeWhile (fun x => x != c)).reverse
      ∧ P.length = t.length - 1 - (t.reverse.takeWhile (fun x => x != c)).length := by
  have hsplit := List.takeWhile_append_dropWhile (fun x => x != c) t.reverse
  cases hd : t.reverse.dropWhile (fun x => x != c) with
  | nil =>
    rw [hd, List.append_nil] at hsplit
    rw [hsplit, List.length_reverse] at h
    omega
  | cons x dw =>
    have hx : x = c := by
      have := dropWhile_head_false _ _ _ _ hd
      simpa using this
    subst hx
    rw [hd] at hsplit
    have ht : t = dw.reverse ++ x :: (t.reverse.takeWhile (fun y => y != x)).reverse := by
      have := congrArg List.reverse hsplit
      rw [List.reverse_reverse, List.reverse_append, List.reverse_cons,
        List.append_assoc] at this
      exact this.symm
    refine ⟨dw.reverse, ht, ?_⟩
    have hl := congrArg List.length ht
    simp only [List.length_append, List.length_cons, List.length_reverse] at hl ⊢
    omega

theorem cstr_drop_le (m : List Nat) (e : Nat) (h : e ≤ (cstr m).length) :
    cstr (m.drop e) = (cstr m).drop e := by
  induction m generalizing e with
  | nil => simp [cstr]
  | cons a t ih =>
    cases e with
    | zero => simp
    | succ k =>
      by_cases ha : a = 0
      · simp [cstr, List.takeWhile_cons, ha] at h
      · have hk : k ≤ (cstr t).length := by
          simp [cstr, List.takeWhile_cons, ha] at h
          unfold cstr
          omega
        have := ih k hk
        simp only [cstr] at this
        simp [cstr, List.takeWhile_cons, ha, this]

theorem tolower_eq_dot (x : Nat) (h : tolower x = 46) : x = 46 := by
  unfold tolower at h
  split at h <;> omega

theorem tolower_letter_ne_dot (x v : Nat) (h : tolower x = v) (hv : v ≠ 46) : x ≠ 46 := by
  intro hx
  subst hx
  have : tolower 46 = 46 := by decide
  omega

/-- A name that ends with `.exe` has its last dot four bytes before the end. -/
theorem exe_suffix_last_dot (E : List Nat) (h : has_exe_suffix E = true) :
    4 ≤ E.length
      ∧ (E.reverse.takeWhile (fun x => x != 46)).length = 3
      ∧ 46 :: (E.reverse.takeWhile (fun x => x != 46)).reverse = E.drop (E.length - 4) := by
  unfold has_exe_suffix at h
  have hexe : s2b ".exe" = [46, 101, 120, 101] := by decide
  rw [hexe, beq_iff_eq] at h
  have hlen : (E.drop (E.length - 4)).length = 4 := by
    have := congrArg List.length h
    simpa using this
  have h4 : 4 ≤ E.length := by
    rw [List.length_drop] at hlen
    omega
  have hE := List.take_append_drop (E.length - 4) E
  match hS : E.drop (E.length - 4), hlen with
  | [a, b, c, d], _ =>
    rw [hS] at h hE
    simp only [List.map_cons, List.map_nil, List.cons.injEq, and_true] at h
    obtain ⟨ha, hb, hc, hd⟩ := h
    have ha' := tolower_eq_dot a ha
    have hb' := tolower_letter_ne_dot b 101 hb (by decide)
    have hc' := tolower_letter_ne_dot c 120 hc (by decide)
    have hd' := tolower_letter_ne_dot d 101 hd (by decide)
    have hrev : E.reverse = d :: c :: b :: a :: (E.take (E.length - 4)).reverse := by
      rw [← hE]
      simp
    have htw : E.reverse.takeWhile (fun x => x != 46) = [d, c, b] := by
      rw [hrev]
      simp [List.takeWhile_cons, hb', hc', hd', ha']
    refine ⟨h4, by rw [htw]; rfl, ?_⟩
    rw [htw, ha']
    rfl

/-- The removal of the extension in `get_config_filename` agrees with `strip_exe`. -/
theorem cstr_strip_ext (m : List Nat) :
    cstr (match strrchr m 46 with
      | some e => if strcaseeq (m.drop e) (lit ".exe") then m.set e 0 else m
      | none => m) = strip_exe (cstr m) := by
  have hlit : (cstr (lit ".exe")).map tolower = s2b ".exe" := by decide
  unfold strrchr
  simp only []
  by_cases hlt : ((cstr m).reverse.takeWhile (fun x => x != 46)).length < (cstr m).length
  · rw [if_pos hlt]
    simp only []
    obtain ⟨P, hP, hPl⟩ := last_occurrence_split (cstr m) 46 hlt
    rw [← hPl]
    have hle : P.length ≤ (cstr m).length := by omega
    have hdrop : cstr (m.drop P.length)
        = 46 :: ((cstr m).reverse.takeWhile (fun x => x != 46)).reverse := by
      rw [cstr_drop_le m _ hle]
      conv_lhs => rw [hP]
      rw [List.drop_left]
    by_cases hs : strcaseeq (m.drop P.length) (lit ".exe") = true
    · rw [if_pos hs, cstr_set_zero]
      unfold strcaseeq at hs
      rw [hdrop, hlit, beq_iff_eq] at hs
      have hl4 : (46 :: ((cstr m).reverse.takeWhile (fun x => x != 46)).reverse).length
          = 4 := by
        have hl := congrArg List.length hs
        rw [List.length_map] at hl
        exact hl
      have he : (cstr m).length - 4 = P.length := by
        simp only [List.length_cons, List.length_reverse] at hl4
        omega
      have hsuf : has_exe_suffix (cstr m) = true := by
        unfold has_exe_suffix
        rw [he, beq_iff_eq]
        conv_lhs => rw [hP]
        rw [List.drop_left]
        exact hs
      unfold strip_exe
      rw [if_pos hsuf, he]
    · rw [if_neg hs]
      have hsuf : has_exe_suffix (cstr m) = false := by
        by_contra hc
        have hc' : has_exe_suffix (cstr m) = true := by simpa using hc
        obtain ⟨h4, h3, hd⟩ := exe_suffix_last_dot (cstr m) hc'
        apply hs
        unfold strcaseeq
        rw [hdrop, hd, hlit]
        exact hc'
      unfold strip_exe
      rw [hsuf]
      rfl
  · rw [if_neg hlt]
    simp only []
    have hsuf : has_exe_suffix (cstr m) = false := by
      by_contra hc
      have hc' : has_exe_suffix (cstr m) = true := by simpa using hc
      obtain ⟨h4, h3, _⟩ := exe_suffix_last_dot (cstr m) hc'
      omega
    unfold strip_exe
    rw [hsuf]
    rfl

/-- The cut at the first underscore in `get_config_filename`. -/
theorem cstr_cut_underscore (m : List Nat) :
    cstr (match strchr m 95 with
      | some u => m.set u 0
      | none => m) = (cstr m).takeWhile (fun x => x != 95) := by
  unfold strchr
  simp only []
  by_cases hlt : ((cstr m).takeWhile (fun x => x != 95)).length < (cstr m).length
  · rw [if_pos hlt]
    simp only []
    rw [cstr_set_zero, take_length_takeWhile]
  · rw [if_neg hlt]
    simp only []
    have hsplit := List.takeWhile_append_dropWhile (fun x => x != 95) (cstr m)
    have hl := congrArg List.length hsplit
    rw [List.length_append] at hl
    have h0 : ((cstr m).dropWhile (fun x => x != 95)).length = 0 := by omega
    rw [List.length_eq_zero.mp h0, List.append_nil] at hsplit
    exact hsplit.symm

/-- What `get_config_filename` leaves in `config_file`. -/
theorem cstr_get_config_filename (uninit : Nat → Nat) (argv0 config_file : List Nat)
    (max_len : Nat) (h : 1 ≤ max_len) :
    cstr (get_config_filename uninit argv0 config_file max_len)
      = ((strip_exe ((cstr argv0).take (MAX_PATH_LEN - 1))).takeWhile (fun x => x != 95)
          ++ s2b ".ini").take (max_len - 1) := by
  unfold get_config_filename
  simp only []
  have hini : ∀ c ∈ s2b ".ini", c ≠ 0 := s2b_ne_zero_of _ (by decide)
  rw [cstr_snprintf _ _ _ h (append_ne_zero _ _ (cstr_ne_zero _) hini),
    cstr_cut_underscore, cstr_strip_ext, cstr_set_zero, cstr_strncpy]

/-! ## Configuration file name: claims -/

theorem strip_exe_subset (E : List Nat) : ∀ c ∈ strip_exe E, c ∈ E := by
  intro c hc
  unfold strip_exe at hc
  split at hc
  · exact List.mem_of_mem_take hc
  · exact hc

theorem strip_exe_length (E : List Nat) : (strip_exe E).length ≤ E.length := by
  unfold strip_exe
  split
  · exact List.length_take_le' _ _
  · exact le_refl _

set_option maxRecDepth 100000 in
/-- C11 (as stated, refuted). For the invocation path `showdocs_Windows` the
configuration file is `showdocs.ini`, not `showdocs_Windows.ini`; and for an invocation
path of 509 bytes, shorter than the path buffer, the name is cut to 511 bytes and does
not end in `.ini`. -/
theorem config_file_name_counterexample :
    config_file_name (fun _ => 0) [lit "showdocs_Windows"] = s2b "showdocs.ini"
    ∧ strip_exe (s2b "showdocs_Windows") ++ s2b ".ini" = s2b "showdocs_Windows.ini"
    ∧ deep_argv0.length = 509
    ∧ config_file_name (fun _ => 0) [deep_argv0 ++ [0]] = deep_argv0 ++ s2b ".i"
    ∧ strip_exe deep_argv0 ++ s2b ".ini" = deep_argv0 ++ s2b ".ini" := by
  refine ⟨by decide, by decide, by decide, by decide, by decide⟩

/-- C11 (amended). Config file name follows the binary's name up to its first
underscore: for every invocation path `argv0`, `get_config_filename` leaves in
`config_file` the first `max_len - 1` bytes of `B ++ ".ini"`, where `B` is (the first 511
bytes of) `argv0` with a trailing `.exe` extension, in any letter case, removed if
present, and then cut before its first underscore, if there is one.  So a binary invoked
by a path `X` or `X.exe` of at most 507 bytes without an underscore reads its
configuration from `X.ini`. -/
theorem config_file_name_spec (uninit : Nat → Nat) (argv0 config_file : List Nat)
    (max_len : Nat) (h : 1 ≤ max_len) :
    cstr (get_config_filename uninit argv0 config_file max_len)
        = ((strip_exe ((cstr argv0).take (MAX_PATH_LEN - 1))).takeWhile (fun x => x != 95)
            ++ s2b ".ini").take (max_len - 1)
    ∧ (∀ rest : List (List Nat), (cstr argv0).length ≤ 507 → 95 ∉ cstr argv0 →
        config_file_name uninit (argv0 :: rest) = strip_exe (cstr argv0) ++ s2b ".ini")
    ∧ config_file_name uninit [lit "./webdocs"] = s2b "./webdocs.ini"
    ∧ config_file_name uninit [lit "webdocs.EXE"] = s2b "webdocs.ini" := by
  have hgen : ∀ a : List Nat, config_file_name uninit [a]
      = ((strip_exe ((cstr a).take (MAX_PATH_LEN - 1))).takeWhile (fun x => x != 95)
          ++ s2b ".ini").take (MAX_PATH_LEN - 1) := by
    intro a
    unfold config_file_name
    exact cstr_get_config_filename uninit a _ MAX_PATH_LEN (by decide)
  refine ⟨cstr_get_config_filename uninit argv0 config_file max_len h, ?_, ?_, ?_⟩
  · intro rest hlen hno
    have hM : MAX_PATH_LEN = 512 := rfl
    have hin : (cstr argv0).take (MAX_PATH_LEN - 1) = cstr argv0 :=
      List.take_of_length_le (by omega)
    unfold config_file_name
    rw [List.getD_cons_zero, cstr_get_config_filename uninit argv0 _ MAX_PATH_LEN (by decide),
      hin]
    have htw : (strip_exe (cstr argv0)).takeWhile (fun x => x != 95)
        = strip_exe (cstr argv0) := by
      rw [List.takeWhile_eq_self_iff]
      intro c hc
      have hm := strip_exe_subset _ c hc
      have hne : c ≠ 95 := fun e => hno (e ▸ hm)
      simpa using hne
    rw [htw]
    apply List.take_of_length_le
    have h1 := strip_exe_length (cstr argv0)
    have h2 : (s2b ".ini").length = 4 := rfl
    rw [List.length_append, h2]
    omega
  · rw [hgen]
    decide
  · rw [hgen]
    decide

/-- C11 (amended), at a concrete input: with a 16-byte destination the name for
`./showdocs_Linux` is `./showdocs.ini`. -/
theorem config_file_name_spec_witness :
    cstr (get_config_filename (fun _ => 65) (lit "./showdocs_Linux") (List.replicate 16 65)
        16) = s2b "./showdocs.ini" :=
  (config_file_name_spec (fun _ => 65) (lit "./showdocs_Linux") (List.replicate 16 65) 16
    (by decide)).1.trans (by decide)

/-! ## Header length: claims -/

theorem decimal_length_19 (n : Nat) (h : n ≤ 2 ^ 63) : (decimal n).length ≤ 19 := by
  have h19 : n < 10 ^ 19 := by
    have : (2 : Nat) ^ 63 = 9223372036854775808 := by norm_num
    omega
  exact decimalAux_length (n + 1) n 19 (by decide) h19

theorem fmt_ld_length (v : Int) (hlo : LONG_MIN ≤ v) (hhi : v ≤ (LONG_MAX : Int)) :
    (fmt_ld v).length ≤ 20 := by
  have hmin : LONG_MIN = -9223372036854775808 := by decide
  have hmax : LONG_MAX = 9223372036854775807 := by decide
  have h63 : (2 : Nat) ^ 63 = 9223372036854775808 := by norm_num
  unfold fmt_ld
  split
  · have := decimal_length_19 v.natAbs (by omega)
    rw [List.length_cons]
    omega
  · have := decimal_length_19 v.toNat (by omega)
    omega

/-- C12. The response header is never cut by its 512-byte array: for each of the two
status lines that the dispatch logic passes, every date string of at most 127 bytes and
every file size representable as a signed 64-bit integer, the formatted header is at most
511 bytes long, so the bytes sent as the header (the string stored in `header`) are the
complete header, and they end with the blank line `\r\n\r\n`; the first buffer that
`send_http_response` sends for a file it could open is this complete header. -/
theorem header_never_truncated (uninit : Nat → Nat) (status_line date_str : List Nat)
    (file_size : Int)
    (hs : status_line = lit "HTTP/1.1 200 OK" ∨ status_line = lit "HTTP/1.1 404 Not Found")
    (hd : (cstr date_str).length ≤ 127)
    (hlo : LONG_MIN ≤ file_size) (hhi : file_size ≤ (LONG_MAX : Int)) :
    (format_header status_line date_str file_size).length ≤ 511
    ∧ (snprintf (stack_array uninit 512) 512
          (format_header status_line date_str file_size)).take
        (strlen (snprintf (stack_array uninit 512) 512
          (format_header status_line date_str file_size)))
        = format_header status_line date_str file_size
    ∧ s2b "\r\n\r\n" <:+ format_header status_line date_str file_size
    ∧ (∀ (fs : FS) (filename root_dir contents : List Nat),
        fs (resolve uninit root_dir filename) = some contents →
        (send_http_response fs uninit status_line filename date_str root_dir).head?
          = some (format_header status_line date_str (ftell_end contents))) := by
  have h2 : (cstr status_line).length ≤ 22 := by
    rcases hs with hs | hs <;> rw [hs] <;> decide
  have hlen : (format_header status_line date_str file_size).length ≤ 511 := by
    rw [format_header_length]
    have h1 := fmt_ld_length file_size hlo hhi
    omega
  refine ⟨hlen, ?_, ?_, ?_⟩
  rotate_left 2
  · intro fs filename root_dir contents hc
    rw [send_http_response_eq, hc]
    simp only [List.head?_cons]
    rw [List.take_of_length_le]
    rw [format_header_length]
    have h1 := fmt_ld_ftell_end_length contents
    omega
  · rw [take_strlen, cstr_snprintf _ _ _ (by decide) (format_header_ne_zero _ _ _)]
    exact List.take_of_length_le hlen
  · unfold format_header
    have e : s2b "\r\n\r\n" = s2b "\r\n" ++ s2b "\r\n" := by decide
    rw [e, List.append_assoc]
    exact List.suffix_append _ _

/-- C12, at a concrete input: the header of the 404 response for a file of
`LONG_MAX` bytes, with a 29-byte date, is stored whole. -/
theorem header_never_truncated_witness :
    (format_header (lit "HTTP/1.1 404 Not Found") (lit "Thu, 01 Jan 1970 00:00:00 GMT")
        9223372036854775807).length ≤ 511 :=
  (header_never_truncated (fun _ => 65) (lit "HTTP/1.1 404 Not Found")
    (lit "Thu, 01 Jan 1970 00:00:00 GMT") 9223372036854775807 (Or.inr rfl) (by decide)
    (by decide) (by decide)).1

end Showdocs
